import Mathlib

/-!
# Verification of the Proxmox Omni infra provider's provisioning core

A shallow embedding of `internal/pkg/provider/data.go` (node selection,
storage selection, image-name derivation, VM option assembly, the provisioning
steps, task polling and deprovisioning) together with theorems checking the
natural-language specification against it.

Conventions of the embedding:
* Go machine integers are modelled as `Nat`/`Int`, with explicit `% 2^64`
  where Go's wrapping arithmetic matters.
* Go's `float64` free-memory ratio is modelled as `ℚ` (the ratios compared are
  exact quotients of machine integers; float rounding and NaN are out of
  scope).
* Fallible remote calls are modelled through an environment record of
  `Except`-valued fields; a step is a pure function of the environment and of
  the persisted machine state.
* `slices.SortFunc` of the Go standard library, which `pickNode` calls, is
  transcribed below (pdqsort: insertion sort for ranges of at most 12
  elements, otherwise partitioning with a heapsort fallback).  It sorts in
  place and is not stable.  Loops are given explicit fuel; the fuel supplied
  at every call site exceeds the iteration count of any actual run, and an
  exhausted-fuel branch returns its argument unchanged.
-/

set_option maxHeartbeats 1000000
set_option linter.unusedSectionVars false

namespace ProxmoxProvider

open scoped List

/-! ## Decimal and hexadecimal printing, Go quoting, UTF-8 bytes -/

/-- Decimal digit character (`0`–`9`); argument is taken modulo the table. -/
def digitCh : Nat → Char
  | 0 => '0' | 1 => '1' | 2 => '2' | 3 => '3' | 4 => '4'
  | 5 => '5' | 6 => '6' | 7 => '7' | 8 => '8' | _ => '9'

/-- Digits of a positive natural number, most significant first (empty for 0). -/
def goNatDigits : Nat → List Char
  | 0 => []
  | n + 1 => goNatDigits ((n + 1) / 10) ++ [digitCh ((n + 1) % 10)]
decreasing_by exact Nat.div_lt_self (Nat.succ_pos n) (by norm_num)

/-- Models Go `strconv.Itoa` / `fmt %d` on a non-negative value. -/
def goItoa (n : Nat) : String := if n = 0 then "0" else ⟨goNatDigits n⟩

/-- Models Go `fmt %d` on a signed value. -/
def goItoaInt (i : Int) : String :=
  if i < 0 then "-" ++ goItoa i.natAbs else goItoa i.natAbs

/-- Hexadecimal digit character, lowercase (as Go `encoding/hex` emits). -/
def hexDigit : Nat → Char
  | 0 => '0' | 1 => '1' | 2 => '2' | 3 => '3' | 4 => '4'
  | 5 => '5' | 6 => '6' | 7 => '7' | 8 => '8' | 9 => '9'
  | 10 => 'a' | 11 => 'b' | 12 => 'c' | 13 => 'd' | 14 => 'e' | _ => 'f'

/-- Two lowercase hex digits of a byte. -/
def hexByte (b : Nat) : List Char := [hexDigit (b / 16 % 16), hexDigit (b % 16)]

/-- Quoting of one ASCII character as Go `strconv.Quote` (hence `fmt %q`)
renders it: quote and backslash get a backslash escape, the common control
characters their mnemonic escape, other non-printable bytes a `\x` escape.
(Non-ASCII runes, which no theorem below exercises, escape differently.) -/
def goQuoteChar (c : Char) : List Char :=
  if c = '"' then ['\\', '"']
  else if c = '\\' then ['\\', '\\']
  else if c = '\n' then ['\\', 'n']
  else if c = '\r' then ['\\', 'r']
  else if c = '\t' then ['\\', 't']
  else if 32 ≤ c.toNat ∧ c.toNat < 127 then [c]
  else '\\' :: 'x' :: hexByte c.toNat

/-- Models Go `fmt %q` on an ASCII string: double quotes around the
character-wise escaping. -/
def goQuote (s : String) : String :=
  ⟨'"' :: (s.data.map goQuoteChar).flatten ++ ['"']⟩

/-- A character that `goQuote` passes through unchanged. -/
def plainChar (c : Char) : Prop :=
  c ≠ '"' ∧ c ≠ '\\' ∧ 32 ≤ c.toNat ∧ c.toNat < 127

instance : DecidablePred plainChar := fun c => by unfold plainChar; infer_instance

/-- UTF-8 encoding of one scalar value (RFC 3629). -/
def utf8Char (c : Char) : List Nat :=
  let n := c.toNat
  if n < 0x80 then [n]
  else if n < 0x800 then [0xC0 + n / 64, 0x80 + n % 64]
  else if n < 0x10000 then [0xE0 + n / 4096, 0x80 + n / 64 % 64, 0x80 + n % 64]
  else [0xF0 + n / 262144, 0x80 + n / 4096 % 64, 0x80 + n / 64 % 64, 0x80 + n % 64]

/-- The UTF-8 bytes of a string (what Go's `[]byte(s)` yields). -/
def utf8Bytes (s : String) : List Nat := (s.data.map utf8Char).flatten

/-! ## SHA-256 (FIPS 180-4), as `crypto/sha256` computes it -/

/-- Right rotation within 32 bits (argument below `2 ^ 32`). -/
def rotr32 (k x : Nat) : Nat := x / 2 ^ k + x % 2 ^ k * 2 ^ (32 - k)

/-- Logical right shift. -/
def shr32 (k x : Nat) : Nat := x / 2 ^ k

/-- Addition modulo `2 ^ 32`. -/
def add32 (a b : Nat) : Nat := (a + b) % 2 ^ 32

/-- Bitwise complement within 32 bits. -/
def not32 (x : Nat) : Nat := 2 ^ 32 - 1 - x

def shaCh (x y z : Nat) : Nat := Nat.xor (Nat.land x y) (Nat.land (not32 x) z)

def shaMaj (x y z : Nat) : Nat :=
  Nat.xor (Nat.xor (Nat.land x y) (Nat.land x z)) (Nat.land y z)

def bigSigma0 (x : Nat) : Nat :=
  Nat.xor (Nat.xor (rotr32 2 x) (rotr32 13 x)) (rotr32 22 x)

def bigSigma1 (x : Nat) : Nat :=
  Nat.xor (Nat.xor (rotr32 6 x) (rotr32 11 x)) (rotr32 25 x)

def smallSigma0 (x : Nat) : Nat :=
  Nat.xor (Nat.xor (rotr32 7 x) (rotr32 18 x)) (shr32 3 x)

def smallSigma1 (x : Nat) : Nat :=
  Nat.xor (Nat.xor (rotr32 17 x) (rotr32 19 x)) (shr32 10 x)

/-- The SHA-256 round constants. -/
def shaK : List Nat :=
  [0x428A2F98, 0x71374491, 0xB5C0FBCF, 0xE9B5DBA5, 0x3956C25B, 0x59F111F1,
   0x923F82A4, 0xAB1C5ED5, 0xD807AA98, 0x12835B01, 0x243185BE, 0x550C7DC3,
   0x72BE5D74, 0x80DEB1FE, 0x9BDC06A7, 0xC19BF174, 0xE49B69C1, 0xEFBE4786,
   0x0FC19DC6, 0x240CA1CC, 0x2DE92C6F, 0x4A7484AA, 0x5CB0A9DC, 0x76F988DA,
   0x983E5152, 0xA831C66D, 0xB00327C8, 0xBF597FC7, 0xC6E00BF3, 0xD5A79147,
   0x06CA6351, 0x14292967, 0x27B70A85, 0x2E1B2138, 0x4D2C6DFC, 0x53380D13,
   0x650A7354, 0x766A0ABB, 0x81C2C92E, 0x92722C85, 0xA2BFE8A1, 0xA81A664B,
   0xC24B8B70, 0xC76C51A3, 0xD192E819, 0xD6990624, 0xF40E3585, 0x106AA070,
   0x19A4C116, 0x1E376C08, 0x2748774C, 0x34B0BCB5, 0x391C0CB3, 0x4ED8AA4A,
   0x5B9CCA4F, 0x682E6FF3, 0x748F82EE, 0x78A5636F, 0x84C87814, 0x8CC70208,
   0x90BEFFFA, 0xA4506CEB, 0xBEF9A3F7, 0xC67178F2]

/-- The SHA-256 initial hash value. -/
def shaH0 : List Nat :=
  [0x6A09E667, 0xBB67AE85, 0x3C6EF372, 0xA54FF53A,
   0x510E527F, 0x9B05688C, 0x1F83D9AB, 0x5BE0CD19]

/-- Eight big-endian bytes of a 64-bit value. -/
def be64 (n : Nat) : List Nat :=
  [n / 2 ^ 56 % 256, n / 2 ^ 48 % 256, n / 2 ^ 40 % 256, n / 2 ^ 32 % 256,
   n / 2 ^ 24 % 256, n / 2 ^ 16 % 256, n / 2 ^ 8 % 256, n % 256]

/-- Four big-endian bytes of a 32-bit word. -/
def be32 (n : Nat) : List Nat :=
  [n / 2 ^ 24 % 256, n / 2 ^ 16 % 256, n / 2 ^ 8 % 256, n % 256]

/-- Merkle–Damgård padding: `0x80`, zeros to 56 mod 64, the bit length big-endian. -/
def shaPad (m : List Nat) : List Nat :=
  m ++ 0x80 :: List.replicate ((120 - (m.length + 1) % 64) % 64) 0 ++ be64 (8 * m.length)

/-- Big-endian 32-bit words of a byte list. -/
def toWords : List Nat → List Nat
  | b0 :: b1 :: b2 :: b3 :: rest =>
      (b0 * 2 ^ 24 + b1 * 2 ^ 16 + b2 * 2 ^ 8 + b3) :: toWords rest
  | _ => []

/-- Extend 16 message words to the 64-entry schedule. -/
def shaSchedule (w16 : List Nat) : List Nat :=
  (List.range 48).foldl
    (fun w _ =>
      w ++ [add32 (add32 (smallSigma1 (w.getD (w.length - 2) 0)) (w.getD (w.length - 7) 0))
              (add32 (smallSigma0 (w.getD (w.length - 15) 0)) (w.getD (w.length - 16) 0))])
    w16

/-- One compression round. -/
def shaRound (st : List Nat) (kw : Nat × Nat) : List Nat :=
  let a := st.getD 0 0; let b := st.getD 1 0; let c := st.getD 2 0
  let d := st.getD 3 0; let e := st.getD 4 0; let f := st.getD 5 0
  let g := st.getD 6 0; let h := st.getD 7 0
  let t1 := add32 (add32 (add32 h (bigSigma1 e)) (add32 (shaCh e f g) kw.1)) kw.2
  let t2 := add32 (bigSigma0 a) (shaMaj a b c)
  [add32 t1 t2, a, b, c, add32 d t1, e, f, g]

/-- Compress one 64-byte block into the running hash. -/
def shaBlock (h : List Nat) (block : List Nat) : List Nat :=
  let w := shaSchedule (toWords block)
  let fin := (shaK.zip w).foldl shaRound h
  (h.zip fin).map fun p => add32 p.1 p.2

/-- Fold the padded message, 64 bytes at a time. -/
def shaBlocks (h : List Nat) : List Nat → List Nat
  | [] => h
  | b :: rest => shaBlocks (shaBlock h ((b :: rest).take 64)) (rest.drop 63)
termination_by bs => bs.length
decreasing_by
  simp only [List.length_cons, List.length_drop]
  omega

/-- SHA-256 digest (32 bytes) of a byte list. -/
def sha256Bytes (m : List Nat) : List Nat :=
  ((shaBlocks shaH0 (shaPad m)).map be32).flatten

/-- Lowercase hex of a byte list (Go `hex.EncodeToString`). -/
def hexStr (bs : List Nat) : String := ⟨(bs.map hexByte).flatten⟩

/-- `hex.EncodeToString(sha256.Sum(bytes s))` as one function on strings. -/
def sha256Hex (s : String) : String := hexStr (sha256Bytes (utf8Bytes s))

/-! ## Go's `slices.SortFunc`

`pickNode` sorts its argument with `slices.SortFunc`, the Go standard
library's in-place, unstable pattern-defeating quicksort.  Its behaviour (not
merely its contract) decides the tie-breaking questions, so it is transcribed
here over lists: reads are `lget` (out-of-range reads yield `default`, which
actual runs never perform), writes are `lswap` (an out-of-range swap is the
identity; Go would panic, and actual runs stay in range).  Index-walking
loops carry explicit fuel. -/

section GoSort

variable {α : Type} [Inhabited α]

/-- Read `data[i]`. -/
def lget (l : List α) (i : Nat) : α := l.getD i default

/-- `data[i], data[j] = data[j], data[i]`. -/
def lswap (l : List α) (i j : Nat) : List α :=
  if i < l.length ∧ j < l.length then (l.set i (lget l j)).set j (lget l i) else l

variable (cmp : α → α → Int)

/-- Insert `x` into an (ascending) sorted list after every element not
strictly greater — the resting position of Go's swap-left inner loop. -/
def insertTail (x : α) : List α → List α
  | [] => [x]
  | y :: ys => if cmp x y < 0 then x :: y :: ys else y :: insertTail x ys

/-- Go `insertionSortCmpFunc` on a whole list: elements are taken left to
right and each is swapped left past every strictly greater predecessor, which
inserts it after its equals — the stable insertion sort. -/
def insertionSortList (l : List α) : List α :=
  l.foldl (fun acc x => insertTail cmp x acc) []

/-- Go `insertionSortCmpFunc(data, a, b)`: sort the range `[a, b)` in place. -/
def insertionSortRange (l : List α) (a b : Nat) : List α :=
  if b ≤ a then l
  else l.take a ++ insertionSortList cmp ((l.drop a).take (b - a)) ++ l.drop b

/-- Go `reverseRangeCmpFunc(data, a, b)`: reverse the range `[a, b)`. -/
def reverseRangeGo (l : List α) (a b : Nat) : List α :=
  if b ≤ a then l
  else l.take a ++ ((l.drop a).take (b - a)).reverse ++ l.drop b

/-- `for i <= j && cmp(data[i], pv) < 0 { i++ }`. -/
def scanLt (l : List α) (pv : α) : Nat → Nat → Nat → Nat
  | 0, i, _ => i
  | fuel + 1, i, j =>
      if i ≤ j ∧ cmp (lget l i) pv < 0 then scanLt l pv fuel (i + 1) j else i

/-- `for i <= j && !(cmp(data[j], pv) < 0) { j-- }`. -/
def scanGe (l : List α) (pv : α) : Nat → Nat → Nat → Nat
  | 0, _, j => j
  | fuel + 1, i, j =>
      if i ≤ j ∧ ¬cmp (lget l j) pv < 0 then scanGe l pv fuel i (j - 1) else j

/-- The swapping loop of Go `partitionCmpFunc`; returns the data and the
final `j`. -/
def partLoop (pv : α) : Nat → List α → Nat → Nat → List α × Nat
  | 0, l, _, j => (l, j)
  | fuel + 1, l, i, j =>
      let i1 := scanLt cmp l pv (fuel + 1) i j
      let j1 := scanGe cmp l pv (fuel + 1) i1 j
      if i1 > j1 then (l, j1)
      else partLoop pv fuel (lswap l i1 j1) (i1 + 1) (j1 - 1)

/-- Go `partitionCmpFunc(data, a, b, pivot)`: Hoare partition of `[a, b)`
around `data[pivot]`; returns the data, the pivot's final position and
whether the range was already partitioned. -/
def partitionGo (l : List α) (a b pivot : Nat) : List α × Nat × Bool :=
  let l1 := lswap l a pivot
  let pv := lget l1 a
  let i0 := scanLt cmp l1 pv (b + 1) (a + 1) (b - 1)
  let j0 := scanGe cmp l1 pv (b + 1) i0 (b - 1)
  if i0 > j0 then (lswap l1 j0 a, j0, true)
  else
    let res := partLoop cmp pv (b + 1) (lswap l1 i0 j0) (i0 + 1) (j0 - 1)
    (lswap res.1 res.2 a, res.2, false)

/-- `for i <= j && !(cmp(pv, data[i]) < 0) { i++ }` (equal-to-pivot scan). -/
def scanLe (l : List α) (pv : α) : Nat → Nat → Nat → Nat
  | 0, i, _ => i
  | fuel + 1, i, j =>
      if i ≤ j ∧ ¬cmp pv (lget l i) < 0 then scanLe l pv fuel (i + 1) j else i

/-- `for i <= j && cmp(pv, data[j]) < 0 { j-- }`. -/
def scanGt (l : List α) (pv : α) : Nat → Nat → Nat → Nat
  | 0, _, j => j
  | fuel + 1, i, j =>
      if i ≤ j ∧ cmp pv (lget l j) < 0 then scanGt l pv fuel i (j - 1) else j

/-- The swapping loop of Go `partitionEqualCmpFunc`; returns the data and the
final `i`. -/
def partEqLoop (pv : α) : Nat → List α → Nat → Nat → List α × Nat
  | 0, l, i, _ => (l, i)
  | fuel + 1, l, i, j =>
      let i1 := scanLe cmp l pv (fuel + 1) i j
      let j1 := scanGt cmp l pv (fuel + 1) i1 j
      if i1 > j1 then (l, i1)
      else partEqLoop pv fuel (lswap l i1 j1) (i1 + 1) (j1 - 1)

/-- Go `partitionEqualCmpFunc(data, a, b, pivot)`: move elements equal to the
pivot to the front of `[a, b)`; returns the data and the first index past
them. -/
def partitionEqualGo (l : List α) (a b pivot : Nat) : List α × Nat :=
  let l1 := lswap l a pivot
  let pv := lget l1 a
  partEqLoop cmp pv (b + 1) l1 (a + 1) (b - 1)

/-- `for i < b && !(cmp(data[i], data[i-1]) < 0) { i++ }`. -/
def scanAsc (l : List α) : Nat → Nat → Nat → Nat
  | 0, i, _ => i
  | fuel + 1, i, b =>
      if i < b ∧ ¬cmp (lget l i) (lget l (i - 1)) < 0 then scanAsc l fuel (i + 1) b
      else i

/-- Shift the smaller element of a swapped pair further left. -/
def shiftLeftGo : Nat → List α → Nat → List α
  | 0, l, _ => l
  | fuel + 1, l, j =>
      if 1 ≤ j ∧ cmp (lget l j) (lget l (j - 1)) < 0 then
        shiftLeftGo fuel (lswap l j (j - 1)) (j - 1)
      else l

/-- Shift the greater element of a swapped pair further right. -/
def shiftRightGo : Nat → List α → Nat → Nat → List α
  | 0, l, _, _ => l
  | fuel + 1, l, j, b =>
      if j < b ∧ cmp (lget l j) (lget l (j - 1)) < 0 then
        shiftRightGo fuel (lswap l j (j - 1)) (j + 1) b
      else l

/-- The step loop of Go `partialInsertionSortCmpFunc`. -/
def partialInsertLoop (a b : Nat) : Nat → List α → Nat → List α × Bool
  | 0, l, _ => (l, false)
  | steps + 1, l, i =>
      let i1 := scanAsc cmp l (b + 1) i b
      if i1 = b then (l, true)
      else if b - a < 50 then (l, false)
      else
        let l1 := lswap l i1 (i1 - 1)
        let l2 := if i1 - a ≥ 2 then shiftLeftGo cmp (b + 1) l1 (i1 - 1) else l1
        let l3 := if b - i1 ≥ 2 then shiftRightGo cmp (b + 1) l2 (i1 + 1) b else l2
        partialInsertLoop a b steps l3 i1

/-- Go `partialInsertionSortCmpFunc(data, a, b)`: repair at most five
adjacent inversions of an almost-sorted range; returns the data and whether
the range ended fully sorted. -/
def partialInsertSortGo (l : List α) (a b : Nat) : List α × Bool :=
  partialInsertLoop cmp a b 5 l (a + 1)

/-- `bits.Len`: position of the highest set bit. -/
def bitsLen (n : Nat) : Nat := if n = 0 then 0 else Nat.log2 n + 1

/-- One step of the xorshift generator Go's sort seeds with the length. -/
def xorNext (s : Nat) : Nat :=
  let a := Nat.xor s (s * 2 ^ 13) % 2 ^ 64
  let b := Nat.xor a (a / 2 ^ 7)
  Nat.xor b (b * 2 ^ 17) % 2 ^ 64

/-- Go `breakPatternsCmpFunc(data, a, b)`: swap three elements around the
midpoint with pseudo-random others to break up pathological patterns. -/
def breakPatternsGo (l : List α) (a b : Nat) : List α :=
  let length := b - a
  if length ≥ 8 then
    let modulus := 2 ^ bitsLen length
    let idx := a + length / 4 * 2 - 1
    let step := fun (st : List α × Nat) (i : Nat) =>
      let r := xorNext st.2
      let other0 := Nat.land r (modulus - 1)
      let other := if other0 ≥ length then other0 - length else other0
      (lswap st.1 (idx - 1 + i) (a + other), r)
    ((List.range 3).foldl step (l, length)).1
  else l

/-- Go `siftDownCmpFunc(data, lo, hi, first)`: sink the root of the implicit
max-heap over `data[first : first+hi)`. -/
def siftDownGo : Nat → List α → Nat → Nat → Nat → List α
  | 0, l, _, _, _ => l
  | fuel + 1, l, root, hi, first =>
      let child0 := 2 * root + 1
      if child0 ≥ hi then l
      else
        let child :=
          if child0 + 1 < hi ∧ cmp (lget l (first + child0)) (lget l (first + child0 + 1)) < 0
          then child0 + 1 else child0
        if ¬cmp (lget l (first + root)) (lget l (first + child)) < 0 then l
        else siftDownGo fuel (lswap l (first + root) (first + child)) child hi first

/-- Go `heapSortCmpFunc(data, a, b)`. -/
def heapSortGo (l : List α) (a b : Nat) : List α :=
  let first := a
  let hi := b - a
  let l1 := ((List.range ((hi - 1) / 2 + 1)).reverse).foldl
    (fun acc i => siftDownGo cmp (hi + 1) acc i hi first) l
  ((List.range hi).reverse).foldl
    (fun acc i => siftDownGo cmp (hi + 1) (lswap acc first (first + i)) 0 i first) l1

/-- The sortedness hints of Go `choosePivotCmpFunc`. -/
inductive SortedHint | unknown | increasing | decreasing
deriving DecidableEq

/-- Go `order2CmpFunc`: order two indices by the values they hold, counting a
swap when they are exchanged. -/
def order2Go (l : List α) (a b : Nat) (swaps : Nat) : Nat × Nat × Nat :=
  if cmp (lget l b) (lget l a) < 0 then (b, a, swaps + 1) else (a, b, swaps)

/-- Go `medianCmpFunc`: index of the median of three values. -/
def medianGo (l : List α) (a b c : Nat) (swaps : Nat) : Nat × Nat :=
  let p1 := order2Go cmp l a b swaps
  let p2 := order2Go cmp l p1.2.1 c p1.2.2
  let p3 := order2Go cmp l p1.1 p2.1 p2.2.2
  (p3.2.1, p3.2.2)

/-- Go `medianAdjacentCmpFunc`: median of `data[a-1 : a+2]`. -/
def medianAdjGo (l : List α) (a : Nat) (swaps : Nat) : Nat × Nat :=
  medianGo cmp l (a - 1) a (a + 1) swaps

/-- Go `choosePivotCmpFunc(data, a, b)`: median(-of-medians) pivot choice and
a sortedness hint derived from how many of the orderings were inverted. -/
def choosePivotGo (l : List α) (a b : Nat) : Nat × SortedHint :=
  let len := b - a
  let i := a + len / 4 * 1
  let j := a + len / 4 * 2
  let k := a + len / 4 * 3
  if len ≥ 8 then
    let p :=
      if len ≥ 50 then
        let mi := medianAdjGo cmp l i 0
        let mj := medianAdjGo cmp l j mi.2
        let mk := medianAdjGo cmp l k mj.2
        let m := medianGo cmp l mi.1 mj.1 mk.1 mk.2
        m
      else
        medianGo cmp l i j k 0
    if p.2 = 0 then (p.1, SortedHint.increasing)
    else if p.2 = 12 then (p.1, SortedHint.decreasing)
    else (p.1, SortedHint.unknown)
  else (j, SortedHint.increasing)

/-- Go `pdqsortCmpFunc(data, a, b, limit)`.  The outer `for` loop and the
recursion into the shorter side are both fuel-counted recursive calls; a
recursive call starts with fresh `wasBalanced`/`wasPartitioned`, the iterated
side keeps the updated flags, exactly as the Go local variables do. -/
def pdqsortGo : Nat → List α → Nat → Nat → Nat → Bool → Bool → List α
  | 0, l, _, _, _, _, _ => l
  | fuel + 1, l, a, b, limit, wb, wp =>
      let len := b - a
      if len ≤ 12 then insertionSortRange cmp l a b
      else if limit = 0 then heapSortGo cmp l a b
      else
        let l1 := if wb then l else breakPatternsGo l a b
        let limit1 := if wb then limit else limit - 1
        let cp := choosePivotGo cmp l1 a b
        let l2 := if cp.2 = SortedHint.decreasing then reverseRangeGo l1 a b else l1
        let pivot := if cp.2 = SortedHint.decreasing then (b - 1) - (cp.1 - a) else cp.1
        let hint := if cp.2 = SortedHint.decreasing then SortedHint.increasing else cp.2
        let pis :=
          if wb ∧ wp ∧ hint = SortedHint.increasing then partialInsertSortGo cmp l2 a b
          else (l2, false)
        if pis.2 then pis.1
        else
          let l3 := pis.1
          if 0 < a ∧ ¬cmp (lget l3 (a - 1)) (lget l3 pivot) < 0 then
            let pe := partitionEqualGo cmp l3 a b pivot
            pdqsortGo fuel pe.1 pe.2 b limit1 wb wp
          else
            let pr := partitionGo cmp l3 a b pivot
            let mid := pr.2.1
            let wasP := pr.2.2
            let wasB := decide (min (mid - a) (b - mid) ≥ len / 8)
            if mid - a < b - mid then
              let l5 := pdqsortGo fuel pr.1 a mid limit1 true true
              pdqsortGo fuel l5 (mid + 1) b limit1 wasB wasP
            else
              let l5 := pdqsortGo fuel pr.1 (mid + 1) b limit1 true true
              pdqsortGo fuel l5 a mid limit1 wasB wasP

/-- Go `slices.SortFunc`: `pdqsortCmpFunc(x, 0, len(x), bits.Len(len(x)))`. -/
def sortFunc (l : List α) : List α :=
  pdqsortGo cmp (2 * l.length + 64) l 0 l.length (bitsLen l.length) true true

end GoSort

/-! ## Node selection (`pickNode`, `nodeStatus`) -/

/-- `nodeStatus` of `data.go`: name, free-memory ratio (float64, modelled as
`ℚ`), and the count of VMs on the node tagged with the current machine
request set. -/
structure nodeStatus where
  Name : String
  MemoryFree : ℚ
  SameMachineRequestSetVMs : Nat
deriving DecidableEq, Inhabited, Repr

/-- Go `cmp.Compare` on integers (no NaN case). -/
def goCompareNat (a b : Nat) : Int := if a < b then -1 else if b < a then 1 else 0

/-- Go `cmp.Compare` on the (exact, non-NaN) memory ratios. -/
def goCompareRat (a b : ℚ) : Int := if a < b then -1 else if b < a then 1 else 0

/-- The comparator `pickNode` passes to `slices.SortFunc`: ascending count of
same-request-set VMs, then descending free-memory ratio. -/
def nodeCmp (a b : nodeStatus) : Int :=
  if goCompareNat a.SameMachineRequestSetVMs b.SameMachineRequestSetVMs ≠ 0 then
    goCompareNat a.SameMachineRequestSetVMs b.SameMachineRequestSetVMs
  else -(goCompareRat a.MemoryFree b.MemoryFree)

/-- The caller-visible content of the slice after `pickNode` returns:
`slices.SortFunc` has sorted it in place. -/
def pickNodeEffect (l : List nodeStatus) : List nodeStatus := sortFunc nodeCmp l

/-- `pickNode`: sort by the two-key comparator, return the first element
(Go indexes `nodeInfoList[0]`, which panics on an empty slice; the embedding
returns `default` there — every caller checks non-emptiness first). -/
def pickNode (l : List nodeStatus) : nodeStatus := lget (pickNodeEffect l) 0

/-- The non-strict two-key preference order induced by the comparator. -/
def nodeLE (a b : nodeStatus) : Prop := nodeCmp a b ≤ 0

instance : DecidableRel nodeLE := fun a b => by unfold nodeLE; infer_instance

/-- The first element of the list that every element weakly follows — the
claim's "first-encountered minimal node". -/
def firstMinimal (l : List nodeStatus) : Option nodeStatus :=
  l.find? fun x => decide (∀ z ∈ l, nodeLE x z)

/-! ### Order facts about the comparator -/

theorem nodeCmp_self (a : nodeStatus) : nodeCmp a a = 0 := by
  unfold nodeCmp goCompareNat goCompareRat
  simp

theorem nodeCmp_flip (a b : nodeStatus) : nodeCmp b a = -nodeCmp a b := by
  unfold nodeCmp goCompareNat goCompareRat
  split_ifs <;> first | omega | linarith

theorem nodeCmp_le_iff (a b : nodeStatus) :
    nodeCmp a b ≤ 0 ↔
      a.SameMachineRequestSetVMs < b.SameMachineRequestSetVMs ∨
        (a.SameMachineRequestSetVMs = b.SameMachineRequestSetVMs ∧
          b.MemoryFree ≤ a.MemoryFree) := by
  unfold nodeCmp goCompareNat goCompareRat
  split_ifs <;> constructor <;> intro h <;>
    first
      | omega
      | linarith
      | (exact Or.inl (by omega))
      | (refine Or.inr ⟨by omega, by linarith⟩)
      | (rcases h with h | ⟨h1, h2⟩ <;> first | omega | linarith)

theorem nodeCmp_lt_iff (a b : nodeStatus) :
    nodeCmp a b < 0 ↔
      a.SameMachineRequestSetVMs < b.SameMachineRequestSetVMs ∨
        (a.SameMachineRequestSetVMs = b.SameMachineRequestSetVMs ∧
          b.MemoryFree < a.MemoryFree) := by
  unfold nodeCmp goCompareNat goCompareRat
  split_ifs <;> constructor <;> intro h <;>
    first
      | omega
      | linarith
      | (exact Or.inl (by omega))
      | (refine Or.inr ⟨by omega, by linarith⟩)
      | (rcases h with h | ⟨h1, h2⟩ <;> first | omega | linarith)

theorem nodeCmp_lt_iff_not_le (a b : nodeStatus) :
    nodeCmp a b < 0 ↔ ¬nodeCmp b a ≤ 0 := by
  rw [nodeCmp_flip a b]
  omega

theorem nodeCmp_le_trans {a b c : nodeStatus}
    (h1 : nodeCmp a b ≤ 0) (h2 : nodeCmp b c ≤ 0) : nodeCmp a c ≤ 0 := by
  rw [nodeCmp_le_iff] at h1 h2 ⊢
  rcases h1 with h1 | ⟨h1, h1m⟩ <;> rcases h2 with h2 | ⟨h2, h2m⟩
  · exact Or.inl (by omega)
  · exact Or.inl (by omega)
  · exact Or.inl (by omega)
  · exact Or.inr ⟨by omega, by linarith⟩

theorem nodeCmp_le_lt_trans {a b c : nodeStatus}
    (h1 : nodeCmp a b ≤ 0) (h2 : nodeCmp b c < 0) : nodeCmp a c < 0 := by
  rw [nodeCmp_le_iff] at h1
  rw [nodeCmp_lt_iff] at h2 ⊢
  rcases h1 with h1 | ⟨h1, h1m⟩ <;> rcases h2 with h2 | ⟨h2, h2m⟩
  · exact Or.inl (by omega)
  · exact Or.inl (by omega)
  · exact Or.inl (by omega)
  · exact Or.inr ⟨by omega, by linarith⟩

theorem nodeCmp_lt_le_trans {a b c : nodeStatus}
    (h1 : nodeCmp a b < 0) (h2 : nodeCmp b c ≤ 0) : nodeCmp a c < 0 := by
  rw [nodeCmp_lt_iff] at h1
  rw [nodeCmp_le_iff] at h2
  rw [nodeCmp_lt_iff]
  rcases h1 with h1 | ⟨h1, h1m⟩ <;> rcases h2 with h2 | ⟨h2, h2m⟩
  · exact Or.inl (by omega)
  · exact Or.inl (by omega)
  · exact Or.inl (by omega)
  · exact Or.inr ⟨by omega, by linarith⟩

/-! ### The head of the stable insertion sort is the first minimal element -/

/-- Left fold that keeps the earliest element no later element strictly
beats — what the head of the stable insertion sort computes. -/
def minScan (m : nodeStatus) (l : List nodeStatus) : nodeStatus :=
  l.foldl (fun m x => if nodeCmp x m < 0 then x else m) m

theorem insertTail_ne_nil (x : nodeStatus) (s : List nodeStatus) :
    insertTail nodeCmp x s ≠ [] := by
  cases s with
  | nil => simp [insertTail]
  | cons y ys => unfold insertTail; split <;> simp

theorem headI_insertTail (x : nodeStatus) (s : List nodeStatus) (hs : s ≠ []) :
    (insertTail nodeCmp x s).headI =
      if nodeCmp x s.headI < 0 then x else s.headI := by
  cases s with
  | nil => exact absurd rfl hs
  | cons y ys =>
      unfold insertTail
      split
      · rename_i h; simp [h]
      · rename_i h
        have hn : ¬nodeCmp x y < 0 := by omega
        simp [hn]

theorem headI_foldl_insertTail (xs : List nodeStatus) :
    ∀ acc : List nodeStatus, acc ≠ [] →
      (xs.foldl (fun acc x => insertTail nodeCmp x acc) acc).headI =
        minScan acc.headI xs := by
  induction xs with
  | nil => intro acc _; rfl
  | cons x xs ih =>
      intro acc hacc
      have h1 := ih (insertTail nodeCmp x acc) (insertTail_ne_nil x acc)
      simp only [List.foldl_cons] at *
      rw [h1, headI_insertTail x acc hacc]
      rfl

theorem headI_insertionSortList (y : nodeStatus) (ys : List nodeStatus) :
    (insertionSortList nodeCmp (y :: ys)).headI = minScan y ys := by
  unfold insertionSortList
  simp only [List.foldl_cons]
  have : insertTail nodeCmp y ([] : List nodeStatus) = [y] := rfl
  rw [this, headI_foldl_insertTail ys [y] (by simp)]
  rfl

theorem minScan_step (m x : nodeStatus) (xs : List nodeStatus) :
    minScan m (x :: xs) = minScan (if nodeCmp x m < 0 then x else m) xs := rfl

theorem minScan_mem (l : List nodeStatus) : ∀ m, minScan m l ∈ m :: l := by
  induction l with
  | nil => intro m; simp [minScan]
  | cons x xs ih =>
      intro m
      rw [minScan_step]
      by_cases h : nodeCmp x m < 0
      · rw [if_pos h]
        rcases List.mem_cons.mp (ih x) with h1 | h1

        · rw [h1]; simp
        · exact List.mem_cons_of_mem m (List.mem_cons_of_mem x h1)
      · rw [if_neg h]
        rcases List.mem_cons.mp (ih m) with h1 | h1
        · rw [h1]; simp
        · exact List.mem_cons_of_mem m (List.mem_cons_of_mem x h1)

theorem minScan_min (l : List nodeStatus) :
    ∀ m z, z ∈ m :: l → nodeCmp (minScan m l) z ≤ 0 := by
  induction l with
  | nil =>
      intro m z hz
      simp at hz
      subst hz
      simp [minScan, nodeCmp_self]
  | cons x xs ih =>
      intro m z hz
      rw [minScan_step]
      by_cases h : nodeCmp x m < 0
      · rw [if_pos h]
        rcases List.mem_cons.mp hz with h1 | h1
        · subst h1
          exact le_of_lt (nodeCmp_le_lt_trans (ih x x (by simp)) h)
        · exact ih x z h1
      · rw [if_neg h]
        rcases List.mem_cons.mp hz with h1 | h1
        · rw [h1]
          exact ih m m (by simp)
        · rcases List.mem_cons.mp h1 with h2 | h2
          · have hmx : nodeCmp m x ≤ 0 := by
              rw [nodeCmp_lt_iff_not_le, not_not] at h
              exact h
            rw [h2]
            exact nodeCmp_le_trans (ih m m (by simp)) hmx
          · exact ih m z (by simp [h2])

theorem minScan_first (l : List nodeStatus) :
    ∀ m, ∃ pre suf, m :: l = pre ++ minScan m l :: suf ∧
      ∀ p ∈ pre, nodeCmp (minScan m l) p < 0 := by
  induction l with
  | nil =>
      intro m
      exact ⟨[], [], by simp [minScan], by simp⟩
  | cons x xs ih =>
      intro m
      have hstep : minScan m (x :: xs) = minScan (if nodeCmp x m < 0 then x else m) xs := rfl
      by_cases h : nodeCmp x m < 0
      · rw [hstep, if_pos h]
        obtain ⟨pre, suf, hdec, hstrict⟩ := ih x
        refine ⟨m :: pre, suf, by simpa using hdec, ?_⟩
        intro p hp
        rcases List.mem_cons.mp hp with hp | hp
        · subst hp
          exact nodeCmp_le_lt_trans (minScan_min xs x x (by simp)) h
        · exact hstrict p hp
      · rw [hstep, if_neg h]
        obtain ⟨pre, suf, hdec, hstrict⟩ := ih m
        cases pre with
        | nil =>
            simp only [List.nil_append] at hdec
            have hm : minScan m xs = m := (List.cons.injEq _ _ _ _).mp hdec |>.1.symm
            exact ⟨[], x :: xs, by simp [hm], by simp⟩
        | cons q pre2 =>
            have hq : q = m := ((List.cons.injEq _ _ _ _).mp hdec).1.symm
            have hxs : xs = pre2 ++ minScan m xs :: suf := ((List.cons.injEq _ _ _ _).mp hdec).2
            have hmem : nodeCmp (minScan m xs) m < 0 := by
              apply hstrict
              simp [hq]
            refine ⟨m :: x :: pre2, suf, ?_, ?_⟩
            · conv_lhs => rw [hxs]
              simp
            · intro p hp
              rcases List.mem_cons.mp hp with hp | hp
              · rw [hp]; exact hmem
              · rcases List.mem_cons.mp hp with hp | hp
                · have hmx : nodeCmp m x ≤ 0 := by
                    rw [nodeCmp_lt_iff_not_le, not_not] at h
                    exact h
                  rw [hp]
                  exact nodeCmp_lt_le_trans hmem hmx
                · exact hstrict p (by simp [hp])

theorem find?_append_false {α : Type} (P : α → Bool) :
    ∀ (pre rest : List α), (∀ p ∈ pre, P p = false) →
      (pre ++ rest).find? P = rest.find? P := by
  intro pre
  induction pre with
  | nil => simp
  | cons q pre ih =>
      intro rest h
      rw [List.cons_append,
        List.find?_cons_of_neg _ (by simp [h q (by simp)])]
      exact ih rest fun p hp => h p (by simp [hp])

theorem firstMinimal_cons (y : nodeStatus) (ys : List nodeStatus) :
    firstMinimal (y :: ys) = some (minScan y ys) := by
  obtain ⟨pre, suf, hdec, hstrict⟩ := minScan_first ys y
  unfold firstMinimal
  rw [hdec, find?_append_false, List.find?_cons_of_pos]
  · simp only [decide_eq_true_eq]
    intro z hz
    exact minScan_min ys y z (by rw [hdec]; exact hz)
  · intro p hp
    have hm : nodeCmp (minScan y ys) p < 0 := hstrict p hp
    apply decide_eq_false
    intro hall
    have hple : nodeLE p (minScan y ys) := hall (minScan y ys) (by simp)
    rw [nodeCmp_lt_iff_not_le] at hm
    exact hm hple

/-- On a range of at most 12 elements, one step of pdqsort is the insertion
sort of that range. -/
theorem pdqsortGo_short (fuel : Nat) (l : List nodeStatus) (a b limit : Nat)
    (wb wp : Bool) (h : b - a ≤ 12) :
    pdqsortGo nodeCmp (fuel + 1) l a b limit wb wp =
      insertionSortRange nodeCmp l a b := by
  simp only [pdqsortGo]
  rw [if_pos h]

/-- For at most 12 elements, the very first step of pdqsort is the stable
insertion sort of the whole range. -/
theorem sortFunc_short (l : List nodeStatus) (h : l.length ≤ 12) :
    sortFunc nodeCmp l = insertionSortList nodeCmp l := by
  unfold sortFunc
  have h2 : 2 * l.length + 64 = (2 * l.length + 63) + 1 := by omega
  rw [h2, pdqsortGo_short (2 * l.length + 63) l 0 l.length (bitsLen l.length)
    true true (by omega)]
  unfold insertionSortRange
  cases l with
  | nil => simp [insertionSortList]
  | cons a t =>
      rw [if_neg (by simp : ¬(a :: t).length ≤ 0)]
      simp

theorem pickNode_headI (l : List nodeStatus) :
    pickNode l = (pickNodeEffect l).headI := by
  unfold pickNode lget
  cases h : pickNodeEffect l <;> simp

/-- The amended tie-breaking statement, proved for the insertion-sort regime
of the library sort (at most 12 candidates): `pickNode` returns exactly the
first-encountered minimal node under the two-key order. -/
theorem pickNode_firstMinimal (l : List nodeStatus) (h0 : l ≠ [])
    (h12 : l.length ≤ 12) : firstMinimal l = some (pickNode l) := by
  cases l with
  | nil => exact absurd rfl h0
  | cons y ys =>
      rw [pickNode_headI]
      unfold pickNodeEffect
      rw [sortFunc_short _ h12, headI_insertionSortList, firstMinimal_cons]

/-! ### The library sort permutes: every mutation is a swap -/

section GoSortPerm

variable {α : Type} [Inhabited α] (cmp : α → α → Int)

theorem getD_cons_set_perm :
    ∀ (xs : List α) (j : Nat) (x : α), j < xs.length →
      xs.getD j default :: xs.set j x ~ x :: xs := by
  intro xs
  induction xs with
  | nil => intro j x h; simp at h
  | cons y ys ih =>
      intro j x h
      cases j with
      | zero => simpa using List.Perm.swap x y ys
      | succ j =>
          simp only [List.getD_cons_succ, List.set_cons_succ]
          calc ys.getD j default :: y :: ys.set j x
              ~ y :: ys.getD j default :: ys.set j x := List.Perm.swap _ _ _
            _ ~ y :: x :: ys := (ih j x (by simpa using h)).cons y
            _ ~ x :: y :: ys := List.Perm.swap _ _ _

theorem set_getD_self : ∀ (l : List α) (i : Nat), l.set i (l.getD i default) = l := by
  intro l
  induction l with
  | nil => intro i; simp
  | cons x xs ih =>
      intro i
      cases i with
      | zero => simp
      | succ i => simp only [List.getD_cons_succ, List.set_cons_succ, ih i]

theorem lswap_perm (l : List α) (i j : Nat) : lswap l i j ~ l := by
  unfold lswap
  split
  · rename_i hij
    obtain ⟨hi, hj⟩ := hij
    induction l generalizing i j with
    | nil => simp at hi
    | cons x xs ih =>
        cases i with
        | zero =>
            cases j with
            | zero => simp [lget, set_getD_self]
            | succ j =>
                simp only [lget, List.getD_cons_succ, List.getD_cons_zero,
                  List.set_cons_zero, List.set_cons_succ]
                exact getD_cons_set_perm xs j x (by simpa using hj)
        | succ i =>
            cases j with
            | zero =>
                simp only [lget, List.getD_cons_succ, List.getD_cons_zero,
                  List.set_cons_zero, List.set_cons_succ]
                exact getD_cons_set_perm xs i x (by simpa using hi)
            | succ j =>
                simp only [lget, List.getD_cons_succ, List.set_cons_succ]
                exact (ih i j (by simpa using hi) (by simpa using hj)).cons x
  · exact List.Perm.refl l

theorem insertTail_perm (x : α) : ∀ s : List α, insertTail cmp x s ~ x :: s := by
  intro s
  induction s with
  | nil => simp [insertTail]
  | cons y ys ih =>
      unfold insertTail
      split
      · exact List.Perm.refl _
      · exact (ih.cons y).trans (List.Perm.swap _ _ _)

theorem insertionSortList_perm (l : List α) : insertionSortList cmp l ~ l := by
  have key : ∀ (xs acc : List α),
      xs.foldl (fun acc x => insertTail cmp x acc) acc ~ acc ++ xs := by
    intro xs
    induction xs with
    | nil => intro acc; simp
    | cons x xs ih =>
        intro acc
        simp only [List.foldl_cons]
        calc xs.foldl (fun acc x => insertTail cmp x acc) (insertTail cmp x acc)
            ~ insertTail cmp x acc ++ xs := ih _
          _ ~ (x :: acc) ++ xs := (insertTail_perm cmp x acc).append_right xs
          _ ~ acc ++ x :: xs := (List.perm_middle).symm
  simpa using key l []

theorem range_decompose (l : List α) (a b : Nat) (hab : a ≤ b) :
    l.take a ++ ((l.drop a).take (b - a) ++ l.drop b) = l := by
  have hdrop : l.drop b = (l.drop a).drop (b - a) := by
    rw [List.drop_drop]
    congr 1
    omega
  rw [hdrop, List.take_append_drop, List.take_append_drop]

theorem insertionSortRange_perm (l : List α) (a b : Nat) :
    insertionSortRange cmp l a b ~ l := by
  unfold insertionSortRange
  split
  · exact List.Perm.refl l
  · rename_i hab
    calc l.take a ++ insertionSortList cmp ((l.drop a).take (b - a)) ++ l.drop b
        ~ l.take a ++ ((l.drop a).take (b - a) ++ l.drop b) := by
          rw [List.append_assoc]
          exact ((insertionSortList_perm cmp _).append_right _).append_left _
      _ = l := range_decompose l a b (by omega)

theorem reverseRangeGo_perm (l : List α) (a b : Nat) :
    reverseRangeGo l a b ~ l := by
  unfold reverseRangeGo
  split
  · exact List.Perm.refl l
  · rename_i hab
    calc l.take a ++ ((l.drop a).take (b - a)).reverse ++ l.drop b
        ~ l.take a ++ ((l.drop a).take (b - a) ++ l.drop b) := by
          rw [List.append_assoc]
          exact ((List.reverse_perm _).append_right _).append_left _
      _ = l := range_decompose l a b (by omega)

theorem partLoop_perm (pv : α) :
    ∀ (fuel : Nat) (l : List α) (i j : Nat), (partLoop cmp pv fuel l i j).1 ~ l := by
  intro fuel
  induction fuel with
  | zero => intro l i j; exact List.Perm.refl l
  | succ fuel ih =>
      intro l i j
      unfold partLoop
      dsimp only
      split
      · exact List.Perm.refl l
      · exact (ih _ _ _).trans (lswap_perm _ _ _)

theorem partitionGo_perm (l : List α) (a b pivot : Nat) :
    (partitionGo cmp l a b pivot).1 ~ l := by
  unfold partitionGo
  dsimp only
  split
  · exact (lswap_perm _ _ _).trans (lswap_perm _ _ _)
  · exact (lswap_perm _ _ _).trans
      (((partLoop_perm cmp _ _ _ _ _).trans (lswap_perm _ _ _)).trans
        (lswap_perm _ _ _))

theorem partEqLoop_perm (pv : α) :
    ∀ (fuel : Nat) (l : List α) (i j : Nat), (partEqLoop cmp pv fuel l i j).1 ~ l := by
  intro fuel
  induction fuel with
  | zero => intro l i j; exact List.Perm.refl l
  | succ fuel ih =>
      intro l i j
      unfold partEqLoop
      dsimp only
      split
      · exact List.Perm.refl l
      · exact (ih _ _ _).trans (lswap_perm _ _ _)

theorem partitionEqualGo_perm (l : List α) (a b pivot : Nat) :
    (partitionEqualGo cmp l a b pivot).1 ~ l := by
  unfold partitionEqualGo
  dsimp only
  exact (partEqLoop_perm cmp _ _ _ _ _).trans (lswap_perm _ _ _)

theorem shiftLeftGo_perm :
    ∀ (fuel : Nat) (l : List α) (j : Nat), shiftLeftGo cmp fuel l j ~ l := by
  intro fuel
  induction fuel with
  | zero => intro l j; exact List.Perm.refl l
  | succ fuel ih =>
      intro l j
      unfold shiftLeftGo
      split
      · exact (ih _ _).trans (lswap_perm _ _ _)
      · exact List.Perm.refl l

theorem shiftRightGo_perm :
    ∀ (fuel : Nat) (l : List α) (j b : Nat), shiftRightGo cmp fuel l j b ~ l := by
  intro fuel
  induction fuel with
  | zero => intro l j b; exact List.Perm.refl l
  | succ fuel ih =>
      intro l j b
      unfold shiftRightGo
      split
      · exact (ih _ _ _).trans (lswap_perm _ _ _)
      · exact List.Perm.refl l

theorem partialInsertLoop_perm (a b : Nat) :
    ∀ (steps : Nat) (l : List α) (i : Nat),
      (partialInsertLoop cmp a b steps l i).1 ~ l := by
  intro steps
  induction steps with
  | zero => intro l i; exact List.Perm.refl l
  | succ steps ih =>
      intro l i
      unfold partialInsertLoop
      dsimp only
      split
      · exact List.Perm.refl l
      · split
        · exact List.Perm.refl l
        · refine (ih _ _).trans ?_
          split <;> split <;>
            first
              | exact (shiftRightGo_perm cmp _ _ _ _).trans
                  ((shiftLeftGo_perm cmp _ _ _).trans (lswap_perm _ _ _))
              | exact (shiftRightGo_perm cmp _ _ _ _).trans (lswap_perm _ _ _)
              | exact (shiftLeftGo_perm cmp _ _ _).trans (lswap_perm _ _ _)
              | exact lswap_perm _ _ _

theorem partialInsertSortGo_perm (l : List α) (a b : Nat) :
    (partialInsertSortGo cmp l a b).1 ~ l := by
  unfold partialInsertSortGo
  exact partialInsertLoop_perm cmp a b 5 l (a + 1)

theorem breakPatternsGo_perm (l : List α) (a b : Nat) :
    breakPatternsGo l a b ~ l := by
  unfold breakPatternsGo
  dsimp only
  split
  · have key : ∀ (ss : List Nat) (st : List α × Nat),
        ((ss.foldl (fun (st : List α × Nat) (i : Nat) =>
          (lswap st.1 (a + (b - a) / 4 * 2 - 1 - 1 + i)
            (a + (if Nat.land (xorNext st.2) (2 ^ bitsLen (b - a) - 1) ≥ b - a
              then Nat.land (xorNext st.2) (2 ^ bitsLen (b - a) - 1) - (b - a)
              else Nat.land (xorNext st.2) (2 ^ bitsLen (b - a) - 1))),
            xorNext st.2)) st).1) ~ st.1 := by
      intro ss
      induction ss with
      | nil => intro st; exact List.Perm.refl st.1
      | cons s ss ih =>
          intro st
          simp only [List.foldl_cons]
          exact (ih _).trans (lswap_perm _ _ _)
    exact key (List.range 3) (l, b - a)
  · exact List.Perm.refl l

theorem siftDownGo_perm :
    ∀ (fuel : Nat) (l : List α) (root hi first : Nat),
      siftDownGo cmp fuel l root hi first ~ l := by
  intro fuel
  induction fuel with
  | zero => intro l root hi first; exact List.Perm.refl l
  | succ fuel ih =>
      intro l root hi first
      unfold siftDownGo
      dsimp only
      split
      · exact List.Perm.refl l
      · split <;> split <;>
          first
            | exact List.Perm.refl l
            | exact (ih _ _ _ _).trans (lswap_perm _ _ _)

theorem foldl_perm_of_step {β : Type} (f : List α → β → List α)
    (h : ∀ (l : List α) (x : β), f l x ~ l) :
    ∀ (bs : List β) (l : List α), bs.foldl f l ~ l := by
  intro bs
  induction bs with
  | nil => intro l; exact List.Perm.refl l
  | cons b bs ih => intro l; exact (ih (f l b)).trans (h l b)

theorem heapSortGo_perm (l : List α) (a b : Nat) : heapSortGo cmp l a b ~ l := by
  unfold heapSortGo
  dsimp only
  refine (foldl_perm_of_step _ ?_ _ _).trans (foldl_perm_of_step _ ?_ _ _)
  · intro l2 i
    exact (siftDownGo_perm cmp _ _ _ _ _).trans (lswap_perm _ _ _)
  · intro l2 i
    exact siftDownGo_perm cmp _ _ _ _ _

theorem pdqsortGo_perm :
    ∀ (fuel : Nat) (l : List α) (a b limit : Nat) (wb wp : Bool),
      pdqsortGo cmp fuel l a b limit wb wp ~ l := by
  intro fuel
  induction fuel with
  | zero => intro l a b limit wb wp; exact List.Perm.refl l
  | succ fuel ih =>
      intro l a b limit wb wp
      unfold pdqsortGo
      dsimp only
      split
      · exact insertionSortRange_perm cmp l a b
      · split
        · exact heapSortGo_perm cmp l a b
        · generalize hA : (if wb = true then l else breakPatternsGo l a b) = lA
          have hApm : lA ~ l := by
            rw [← hA]
            split
            · exact List.Perm.refl l
            · exact breakPatternsGo_perm l a b
          generalize (if wb = true then limit else limit - 1) = limit1
          generalize choosePivotGo cmp lA a b = cp
          generalize hB :
            (if cp.2 = SortedHint.decreasing then reverseRangeGo lA a b else lA) = lB
          have hBpm : lB ~ l := by
            rw [← hB]
            split
            · exact (reverseRangeGo_perm lA a b).trans hApm
            · exact hApm
          generalize (if cp.2 = SortedHint.decreasing then b - 1 - (cp.1 - a) else cp.1)
            = pivot
          generalize
            (if cp.2 = SortedHint.decreasing then SortedHint.increasing else cp.2) = hint
          generalize hP :
            (if wb = true ∧ wp = true ∧ hint = SortedHint.increasing
              then partialInsertSortGo cmp lB a b else (lB, false)) = pis
          have hPpm : pis.1 ~ l := by
            rw [← hP]
            split
            · exact (partialInsertSortGo_perm cmp lB a b).trans hBpm
            · exact hBpm
          split
          · exact hPpm
          · split
            · exact (ih _ _ _ _ _ _).trans
                ((partitionEqualGo_perm cmp _ _ _ _).trans hPpm)
            · split
              · exact (ih _ _ _ _ _ _).trans ((ih _ _ _ _ _ _).trans
                  ((partitionGo_perm cmp _ _ _ _).trans hPpm))
              · exact (ih _ _ _ _ _ _).trans ((ih _ _ _ _ _ _).trans
                  ((partitionGo_perm cmp _ _ _ _).trans hPpm))

theorem sortFunc_perm (l : List α) : sortFunc cmp l ~ l :=
  pdqsortGo_perm cmp _ l 0 l.length (bitsLen l.length) true true

end GoSortPerm

theorem pickNodeEffect_perm (l : List nodeStatus) : pickNodeEffect l ~ l :=
  sortFunc_perm nodeCmp l

/-! ### Claim C1 and C9 statements -/

/-- A 13-element node list (the shortest length on which `slices.SortFunc`
leaves its insertion-sort regime): two nodes, `A` before `B`, tie on both
keys. -/
def c1ex : List nodeStatus :=
  [⟨"n0", 0, 6⟩, ⟨"n1", 0, 9⟩, ⟨"A", 0, 0⟩, ⟨"n3", 0, 7⟩, ⟨"n4", 0, 1⟩,
   ⟨"n5", 0, 2⟩, ⟨"n6", 0, 5⟩, ⟨"n7", 0, 8⟩, ⟨"n8", 0, 6⟩, ⟨"n9", 0, 3⟩,
   ⟨"n10", 0, 7⟩, ⟨"n11", 0, 8⟩, ⟨"B", 0, 0⟩]

/-- C1, counterexample: on `c1ex` the first-encountered minimal node is `A`
(position 2), but `pickNode` returns the tied node `B` (position 12): the
unstable partition of the library sort moves the later duplicate in front, so
ties are not resolved to the first-encountered node. -/
theorem C1_counterexample :
    firstMinimal c1ex = some ⟨"A", 0, 0⟩ ∧
      pickNode c1ex = ⟨"B", 0, 0⟩ ∧
      pickNode c1ex ≠ ⟨"A", 0, 0⟩ := by
  refine ⟨by decide, by decide, by decide⟩

/-- C1 (amended): for a non-empty list of at most 12 node statuses — the
regime in which `slices.SortFunc` runs its stable insertion sort — `pickNode`
returns exactly the first-encountered node that is minimal under the two-key
lexicographic order (fewer same-request-set VMs first; on ties the strictly
greater free-memory ratio; on full ties the earliest node). -/
theorem C1_pickNode_firstMinimal (l : List nodeStatus) (h0 : l ≠ [])
    (h12 : l.length ≤ 12) : firstMinimal l = some (pickNode l) :=
  pickNode_firstMinimal l h0 h12

/-- C1, witness: the amended theorem applied to a concrete two-node list. -/
theorem C1_witness :
    ([⟨"x", 1, 2⟩, ⟨"y", 1, 1⟩] : List nodeStatus) ≠ [] ∧
      ([⟨"x", 1, 2⟩, ⟨"y", 1, 1⟩] : List nodeStatus).length ≤ 12 ∧
      firstMinimal [⟨"x", 1, 2⟩, ⟨"y", 1, 1⟩] =
        some (pickNode [⟨"x", 1, 2⟩, ⟨"y", 1, 1⟩]) :=
  ⟨by decide, by decide, C1_pickNode_firstMinimal _ (by decide) (by decide)⟩

/-- C9, counterexample: `slices.SortFunc` sorts the argument slice in place,
so after `pickNode` returns, the caller's list is reordered: on a two-node
list it is exactly reversed, not left unchanged as the claim states. -/
theorem C9_counterexample :
    pickNodeEffect [⟨"A", 0, 1⟩, ⟨"B", 0, 0⟩] ≠
      ([⟨"A", 0, 1⟩, ⟨"B", 0, 0⟩] : List nodeStatus) := by
  decide

/-- C9 (amended): `pickNode` sorts the list in place; afterwards the list
holds the same elements as before — a permutation — though generally in a
different order. -/
theorem C9_pickNodeEffect_perm (l : List nodeStatus) : pickNodeEffect l ~ l :=
  sortFunc_perm nodeCmp l

/-! ## The provider configuration and persisted machine state

The `Data` struct under `src/` declares the eight base fields; the further
fields below are the ones the authoritative `ProvisionSteps` code reads
(`data.DiskSSD`, `data.CPUType`, …), typed as spec §3 enumerates them. -/

/-- One additional disk of the machine config. -/
structure DiskCfg where
  storageSelector : String
  diskSize : Int
  diskSSD : Bool
  diskDiscard : Bool
  diskIOThread : Bool
  diskCache : String
  diskAIO : String
deriving DecidableEq, Repr, Inhabited

/-- One additional network interface of the machine config. -/
structure NicCfg where
  bridge : String
  vlan : Nat
  firewall : Bool
deriving DecidableEq, Repr, Inhabited

/-- One PCI passthrough mapping of the machine config. -/
structure PciCfg where
  mapping : String
  pciExpress : Bool
  primaryGPU : Bool
  romBar : Bool
deriving DecidableEq, Repr, Inhabited

/-- The provider custom machine config (`Data` in `data.go`). -/
structure Data where
  node : String := ""
  storageSelector : String := ""
  networkBridge : String := ""
  cores : Int := 0
  diskSize : Int := 0
  sockets : Int := 0
  memory : Nat := 0
  vlan : Nat := 0
  diskSSD : Bool := false
  diskDiscard : Bool := false
  diskIOThread : Bool := false
  diskCache : String := ""
  diskAIO : String := ""
  cpuType : String := ""
  machineType : String := ""
  numa : Bool := false
  hugepages : String := ""
  balloon : Option Bool := none
  additionalDisks : List DiskCfg := []
  additionalNICs : List NicCfg := []
  pciDevices : List PciCfg := []
deriving DecidableEq, Repr, Inhabited

/-- The persisted provisioning state (`resources.Machine` typed spec):
mutated in place by the steps, durably stored by the orchestrator. -/
structure MachineSpec where
  Node : String := ""
  Schematic : String := ""
  TalosVersion : String := ""
  VolumeId : String := ""
  VolumeUploadTask : String := ""
  Uuid : String := ""
  VmCreateTask : String := ""
  Vmid : Int := 0
  VmStartTask : String := ""
deriving DecidableEq, Repr, Inhabited

/-- A step's Go `error` result: `provision.NewRetryInterval(d)` is itself an
error value, distinguished here from an ordinary message-carrying error. -/
inductive GoErr
  | retry (secs : Nat)
  | msg (s : String)
deriving DecidableEq, Repr

/-- `err.Error()`.  The retry-interval error's text is modelled by a fixed
string; the code only ever compares it against `"stopped"`, which it is not. -/
def GoErr.errString : GoErr → String
  | .retry _ => "retry requested"
  | .msg s => s

/-- A cluster node as the remote `Nodes` call reports it. -/
structure PNodeInfo where
  node : String
  status : String
  mem : Nat
  maxMem : Nat
deriving DecidableEq, Repr, Inhabited

/-- A VM as reported by a node: only its tags matter here. -/
structure PVM where
  tags : List String
deriving DecidableEq, Repr, Inhabited

/-- A polled task: running/successful flags and the free-form status text. -/
structure TaskState where
  isRunning : Bool
  isSuccessful : Bool
  status : String
deriving DecidableEq, Repr, Inhabited

/-- A storage pool as the remote `Storages` call reports it. -/
structure PStorage where
  name : String
  stype : String
  avail : Nat
deriving DecidableEq, Repr, Inhabited

/-- The value of a VM creation option (Go passes strings and integers). -/
inductive OptVal
  | s (v : String)
  | i (v : Int)
deriving DecidableEq, Repr

/-- One `proxmox.VirtualMachineOption`. -/
structure VMOption where
  name : String
  value : OptVal
deriving DecidableEq, Repr

/-- The variable bindings storage selection exposes to the CEL predicate. -/
structure CelBindings where
  name : String
  node : String
  storageType : String
  availableSpace : Nat
deriving DecidableEq, Repr

/-- One invocation's view of the remote Proxmox API and of the orchestrator
(`pctx`).  Every fallible call is an `Except`-valued field; a step is a pure
function of this record and the persisted state. -/
structure Env where
  providerData : Except String Data
  machineRequestSet : Option String
  talosVersion : String
  requestId : String
  joinConfig : String
  newUuid : String
  nodes : Except String (List PNodeInfo)
  nodeHandle : String → Except String Unit
  nodeVMs : String → Except String (List PVM)
  taskPing : String → Except String TaskState
  storageISOHandle : String → Except String Unit
  isoLookup : String → String → Except String String
  downloadURL : String → String → Except String String
  clusterHandle : Except String Unit
  nextId : Except String Nat
  createVM : Nat → List VMOption → Except String String
  getVM : String → Int → Except String Unit
  cloudInit : Except String Unit
  vmStart : Except String String
  vmStop : Except String String
  vmDelete : Except String String
  waitTask : String → Option String
  storages : String → Except String (List PStorage)
  celParse : String → Except String Unit
  celEval : String → CelBindings → Except String Bool

/-! ## Task polling (`checkTaskStatus`) -/

/-- `checkTaskStatus`: ping the task; still running yields the retry-interval
signal, success yields nil, anything else the status text as an error. -/
def checkTaskStatus (env : Env) (id : String) : Option GoErr :=
  match env.taskPing id with
  | .error e => some (.msg e)
  | .ok t =>
      if t.isRunning then some (.retry 10)
      else if t.isSuccessful then none
      else some (.msg t.status)

/-! ## Substring search (Go `strings.Contains`) -/

def isPref : List Char → List Char → Bool
  | [], _ => true
  | _ :: _, [] => false
  | a :: as, b :: bs => a = b && isPref as bs

def subIn : List Char → List Char → Bool
  | sub, [] => isPref sub []
  | sub, c :: t₂ => isPref sub (c :: t₂) || subIn sub t₂

/-- Go `strings.Contains s sub`. -/
def goContains (s sub : String) : Bool := subIn sub.data s.data

/-! ## The pickNode step -/

/-- `machineRequestTagPrefix` of `data.go`. -/
def mrTagPref : String := "machine-request."

/-- `float64(node.MaxMem-node.Mem) / float64(node.MaxMem)`: the subtraction
wraps as `uint64` arithmetic does; the quotient is exact in `ℚ` (a zero
`MaxMem`, which Go would turn into NaN, yields `0` here — no caller
exercises it). -/
def memFreeRatio (maxMem mem : Nat) : ℚ :=
  ((((maxMem + 2 ^ 64 - mem) % 2 ^ 64 : Nat) : ℚ)) / (maxMem : ℚ)

/-- `vm.HasTag(machineRequestTagPrefix + machineRequestSet)` counted over a
node's VMs. -/
def countTagged (vms : List PVM) (tag : String) : Nat :=
  vms.countP fun vm => decide (tag ∈ vm.tags)

/-- The `nodeStatus` gathering loop of the pickNode step: free-memory ratio
always, the same-request-set VM count only when the orchestrator supplies a
request-set id (then a failing node or VM-list query aborts the step). -/
def buildNodeInfos (env : Env) : List PNodeInfo → Except String (List nodeStatus)
  | [] => .ok []
  | n :: rest =>
      match env.machineRequestSet with
      | none =>
          (buildNodeInfos env rest).map
            fun l => ⟨n.node, memFreeRatio n.maxMem n.mem, 0⟩ :: l
      | some mrs =>
          match env.nodeHandle n.node with
          | .error e => .error ("failed to get node " ++ goQuote n.node ++ ", " ++ e)
          | .ok _ =>
              match env.nodeVMs n.node with
              | .error e =>
                  .error ("failed to get vms for now " ++ goQuote n.node ++ ", " ++ e)
              | .ok vms =>
                  (buildNodeInfos env rest).map
                    fun l => ⟨n.node, memFreeRatio n.maxMem n.mem,
                      countTagged vms (mrTagPref ++ mrs)⟩ :: l

/-- The `pickNode` provisioning step. -/
def pickNodeStep (env : Env) (s : MachineSpec) : MachineSpec × Option GoErr :=
  match env.providerData with
  | .error e => (s, some (.msg e))
  | .ok data =>
      match env.nodes with
      | .error e => (s, some (.msg e))
      | .ok nodes =>
          if nodes.length = 0 then (s, some (.msg "no nodes available"))
          else if data.node ≠ "" then
            match nodes.find? fun n => n.node = data.node with
            | some n =>
                if n.status ≠ "online" then
                  (s, some (.msg ("specified node " ++ goQuote data.node ++
                    " is not online (status: " ++ n.status ++ ")")))
                else ({ s with Node := data.node }, none)
            | none =>
                (s, some (.msg ("specified node " ++ goQuote data.node ++
                  " not found in cluster")))
          else
            match buildNodeInfos env nodes with
            | .error e => (s, some (.msg e))
            | .ok infos => ({ s with Node := (pickNode infos).Name }, none)

/-! ## The uploadISO step -/

/-- `constants.ImageFactoryBaseURL` of the omni client. -/
def imageFactoryBaseURL : String := "https://factory.talos.dev"

/-- The canonical boot-image URL: `url.JoinPath("image", schematic, version,
"nocloud-amd64.iso")` on the factory base.  Plain concatenation models the
join for segments free of slashes and characters the path escaper would
rewrite, which schematic ids (hex) and version strings are. -/
def isoURL (schematic version : String) : String :=
  imageFactoryBaseURL ++ "/image/" ++ schematic ++ "/" ++ version ++
    "/nocloud-amd64.iso"

/-- The cached-image file name the step computes:
`hex.EncodeToString(sha256(url)) + ".iso"`. -/
def isoNameOf (schematic version : String) : String :=
  sha256Hex (isoURL schematic version) ++ ".iso"

/-- The fresh-attempt body of the uploadISO step (everything after the
recorded-task poll block): record the Talos version, derive the image name,
store it in `VolumeId`, then either find the image already present or start a
download and record its task. -/
def uploadISOFresh (env : Env) (s : MachineSpec) : MachineSpec × Option GoErr :=
  let s1 := { s with TalosVersion := env.talosVersion }
  match env.providerData with
  | .error e => (s1, some (.msg e))
  | .ok _ =>
      let isoName := isoNameOf s1.Schematic env.talosVersion
      let s2 := { s1 with VolumeId := isoName }
      match env.nodeHandle s2.Node with
      | .error e => (s2, some (.msg e))
      | .ok _ =>
          match env.storageISOHandle s2.Node with
          | .error e => (s2, some (.msg ("failed to get storage: " ++ e)))
          | .ok _ =>
              match env.isoLookup s2.Node isoName with
              | .ok _ => (s2, none)
              | .error _ =>
                  match env.downloadURL isoName (isoURL s2.Schematic env.talosVersion) with
                  | .error e => (s2, some (.msg e))
                  | .ok upid => ({ s2 with VolumeUploadTask := upid }, some (.retry 1))

/-- The `uploadISO` provisioning step: with a recorded download task, poll
it; a failure whose text is exactly `"stopped"` falls through to a fresh
attempt, any other failure (or the retry signal) is returned; success is
done. -/
def uploadISOStep (env : Env) (s : MachineSpec) : MachineSpec × Option GoErr :=
  if s.VolumeUploadTask ≠ "" then
    match checkTaskStatus env s.VolumeUploadTask with
    | some e => if e.errString ≠ "stopped" then (s, some e) else uploadISOFresh env s
    | none => (s, none)
  else uploadISOFresh env s

/-! ## Storage selection (`pickStorage`) -/

/-- The candidate loop of `pickStorage`, generic in the predicate language:
`parse` and `evalBool` stand for `siderocel.ParseBooleanExpression` and
`Expression.EvalBool` (the fixed-schema `cel.NewEnv` construction cannot
fail and is dropped).  Parsing happens inside the loop, as in the source. -/
def pickStorageLoop {E : Type} (parse : String → Except String E)
    (evalBool : E → CelBindings → Except String Bool) (nodeName : String)
    (selector : String) : List PStorage → Except String String
  | [] =>
      .error ("failed to pick the disk: no matches for the condition " ++
        goQuote selector)
  | st :: rest =>
      match parse selector with
      | .error e => .error e
      | .ok ex =>
          match evalBool ex ⟨st.name, nodeName, st.stype, st.avail⟩ with
          | .error e => .error e
          | .ok true => .ok st.name
          | .ok false => pickStorageLoop parse evalBool nodeName selector rest

/-- `pickStorage(ctx, node, selector)`: fetch the node's pools, return the
first whose attributes satisfy the selector expression. -/
def pickStorage {E : Type} (parse : String → Except String E)
    (evalBool : E → CelBindings → Except String Bool) (nodeName : String)
    (storages : Except String (List PStorage)) (selector : String) :
    Except String String :=
  match storages with
  | .error e => .error e
  | .ok sts => pickStorageLoop parse evalBool nodeName selector sts

/-- The provisioner's `pickStorage` against the environment's remote pools
and CEL semantics (an expression is represented by its source text, since
parsing is pure and deterministic). -/
def pickStorageP (env : Env) (nodeName selector : String) : Except String String :=
  pickStorage (fun sel => (env.celParse sel).map fun _ => sel) env.celEval
    nodeName (env.storages nodeName) selector

/-! ## VM option assembly (the syncVM step) -/

/-- The network-bridge default: empty means `vmbr0`. -/
def effectiveBridge (data : Data) : String :=
  if data.networkBridge = "" then "vmbr0" else data.networkBridge

/-- The primary network descriptor (`net0`): fixed `firewall=1`, VLAN tag
only when non-zero. -/
def netStringOf (bridge : String) (vlan : Nat) : String :=
  if vlan = 0 then "virtio,bridge=" ++ bridge ++ ",firewall=1"
  else "virtio,bridge=" ++ bridge ++ ",firewall=1,tag=" ++ goItoa vlan

/-- A disk descriptor: `storage:size` plus the optional flags in their fixed
order (shared by the primary and the additional disks, whose Go code blocks
are identical). -/
def diskOptionsString (stor : String) (size : Int) (ssd dis iothread : Bool)
    (cache aio : String) : String :=
  String.intercalate ","
    ([stor ++ ":" ++ goItoaInt size]
      ++ (if ssd then ["ssd=1"] else [])
      ++ (if dis then ["discard=on"] else [])
      ++ (if iothread then ["iothread=1"] else [])
      ++ (if cache ≠ "" then ["cache=" ++ cache] else [])
      ++ (if aio ≠ "" then ["aio=" ++ aio] else []))

/-- The hugepages lookup table of the syncVM step (total on strings; the
emitting code only reaches it for a non-empty value). -/
def normalizeHugepages (h : String) : String :=
  if h = "2MB" ∨ h = "2" then "2"
  else if h = "1GB" ∨ h = "1024" then "1024"
  else if h = "any" then "any"
  else h

/-- An additional-NIC descriptor: config-supplied firewall flag, VLAN tag
only when non-zero. -/
def nicStringOf (nic : NicCfg) : String :=
  if nic.vlan = 0 then
    "virtio,bridge=" ++ nic.bridge ++ ",firewall=" ++
      goItoa (if nic.firewall then 1 else 0)
  else
    "virtio,bridge=" ++ nic.bridge ++ ",firewall=" ++
      goItoa (if nic.firewall then 1 else 0) ++ ",tag=" ++ goItoa nic.vlan

/-- A PCI passthrough descriptor. -/
def pciStringOf (pci : PciCfg) : String :=
  String.intercalate ","
    (["mapping=" ++ pci.mapping]
      ++ (if pci.pciExpress then ["pcie=1"] else [])
      ++ (if pci.primaryGPU then ["x-vga=1"] else [])
      ++ (if pci.romBar then ["rombar=1"] else []))

/-- The additional-disk loop: slots `scsi1`, `scsi2`, …; a storage-selection
failure is wrapped naming the disk's 1-based index. -/
def buildAdditionalDisks (pickStor : String → Except String String) :
    Nat → List DiskCfg → Except String (List VMOption)
  | _, [] => .ok []
  | i, d :: rest =>
      match pickStor d.storageSelector with
      | .error e =>
          .error ("failed to pick storage for additional disk " ++
            goItoa (i + 1) ++ ": " ++ e)
      | .ok stor =>
          (buildAdditionalDisks pickStor (i + 1) rest).map
            fun opts =>
              ⟨"scsi" ++ goItoa (i + 1),
                .s (diskOptionsString stor d.diskSize d.diskSSD d.diskDiscard
                  d.diskIOThread d.diskCache d.diskAIO)⟩ :: opts

/-- The additional-NIC loop: slots `net1`, `net2`, …. -/
def buildNics : Nat → List NicCfg → List VMOption
  | _, [] => []
  | i, nic :: rest => ⟨"net" ++ goItoa (i + 1), .s (nicStringOf nic)⟩ :: buildNics (i + 1) rest

/-- The PCI passthrough loop: slots `hostpci0`, `hostpci1`, …. -/
def buildPcis : Nat → List PciCfg → List VMOption
  | _, [] => []
  | i, pci :: rest => ⟨"hostpci" ++ goItoa i, .s (pciStringOf pci)⟩ :: buildPcis (i + 1) rest

/-- The request-set tag option, present only when the orchestrator supplies
a request-set id. -/
def tagsOpts (mrs : Option String) : List VMOption :=
  match mrs with
  | some m => [⟨"tags", .s (mrTagPref ++ m)⟩]
  | none => []

/-- The balloon-disabling option, emitted only when the config explicitly
sets ballooning to false. -/
def balloonOpts (b : Option Bool) : List VMOption :=
  match b with
  | some false => [⟨"balloon", .i 0⟩]
  | _ => []

/-- The ordered VM option list of the syncVM step (lines 275–507): the
always-emitted dozen, then the request-set tag, additional disks, machine
type, NUMA, hugepages, balloon, additional NICs and PCI devices — each only
when configured. -/
def buildVMOptions (pickStor : String → Except String String) (data : Data)
    (uuid reqId isoVolId : String) (mrs : Option String) :
    Except String (List VMOption) :=
  match pickStor data.storageSelector with
  | .error e => .error e
  | .ok selectedStorage =>
      match buildAdditionalDisks pickStor 0 data.additionalDisks with
      | .error e => .error e
      | .ok adOpts =>
          .ok
            ([⟨"smbios1", .s ("uuid=" ++ uuid)⟩,
              ⟨"name", .s reqId⟩,
              ⟨"cdrom", .s isoVolId⟩,
              ⟨"cpu", .s (if data.cpuType ≠ "" then data.cpuType else "x86-64-v2-AES")⟩,
              ⟨"cores", .i data.cores⟩,
              ⟨"sockets", .i data.sockets⟩,
              ⟨"memory", .i (data.memory : Int)⟩,
              ⟨"scsi0", .s (diskOptionsString selectedStorage data.diskSize
                data.diskSSD data.diskDiscard data.diskIOThread data.diskCache
                data.diskAIO)⟩,
              ⟨"scsihw", .s "virtio-scsi-single"⟩,
              ⟨"onboot", .i 1⟩,
              ⟨"net0", .s (netStringOf (effectiveBridge data) data.vlan)⟩,
              ⟨"agent", .s "enabled=true"⟩]
            ++ tagsOpts mrs
            ++ adOpts
            ++ (if data.machineType ≠ "" then [⟨"machine", OptVal.s data.machineType⟩] else [])
            ++ (if data.numa then [⟨"numa", OptVal.i 1⟩] else [])
            ++ (if data.hugepages ≠ "" then
                  [⟨"hugepages", OptVal.s (normalizeHugepages data.hugepages)⟩]
                else [])
            ++ balloonOpts data.balloon
            ++ buildNics 0 data.additionalNICs
            ++ buildPcis 0 data.pciDevices)

/-- The `syncVM` provisioning step. -/
def syncVMStep (env : Env) (s : MachineSpec) : MachineSpec × Option GoErr :=
  if s.VmCreateTask ≠ "" then
    match checkTaskStatus env s.VmCreateTask with
    | some e => (s, some e)
    | none => (s, none)
  else
    let s1 := if s.Uuid = "" then { s with Uuid := env.newUuid } else s
    match env.providerData with
    | .error e => (s1, some (.msg e))
    | .ok data =>
        match env.nodeHandle s1.Node with
        | .error e => (s1, some (.msg e))
        | .ok _ =>
            match env.clusterHandle with
            | .error e => (s1, some (.msg e))
            | .ok _ =>
                match env.nextId with
                | .error e => (s1, some (.msg e))
                | .ok vmid =>
                    match env.storageISOHandle s1.Node with
                    | .error e => (s1, some (.msg e))
                    | .ok _ =>
                        match env.isoLookup s1.Node s1.VolumeId with
                        | .error e => (s1, some (.msg e))
                        | .ok volid =>
                            match buildVMOptions (pickStorageP env s1.Node) data
                                s1.Uuid env.requestId volid env.machineRequestSet with
                            | .error e => (s1, some (.msg e))
                            | .ok opts =>
                                match env.createVM vmid opts with
                                | .error e => (s1, some (.msg e))
                                | .ok upid =>
                                    ({ s1 with VmCreateTask := upid, Vmid := (vmid : Int) },
                                      some (.retry 10))

/-- The `startVM` provisioning step. -/
def startVMStep (env : Env) (s : MachineSpec) : MachineSpec × Option GoErr :=
  if s.VmStartTask ≠ "" then
    match checkTaskStatus env s.VmStartTask with
    | some e => (s, some e)
    | none => (s, none)
  else
    match env.getVM s.Node s.Vmid with
    | .error e => (s, some (.msg e))
    | .ok _ =>
        match env.cloudInit with
        | .error e => (s, some (.msg ("failed to inject nocloud config: " ++ e)))
        | .ok _ =>
            match env.vmStart with
            | .error e => (s, some (.msg e))
            | .ok upid => ({ s with VmStartTask := upid }, some (.retry 1))

/-! ## Deprovision -/

/-- `Deprovision`: a zero `Vmid` is an immediate success (nothing was ever
created); a set `Vmid` without a node is a corrupt-state error; a lookup
failure mentioning "does not exist" is the idempotent-delete success; then
stop and delete, each awaited through the internal poll loop (modelled by its
outcome `waitTask`). -/
def Deprovision (env : Env) (s : MachineSpec) : Option GoErr :=
  if s.Vmid = 0 then none
  else if s.Node = "" then some (.msg "VM is missing the node information")
  else
    match env.getVM s.Node s.Vmid with
    | .error e => if goContains e "does not exist" then none else some (.msg e)
    | .ok _ =>
        match env.vmStop with
        | .error e => some (.msg e)
        | .ok t1 =>
            match env.waitTask t1 with
            | some e => some (.msg e)
            | none =>
                match env.vmDelete with
                | .error e => some (.msg e)
                | .ok t2 =>
                    match env.waitTask t2 with
                    | some e => some (.msg e)
                    | none => none

/-! ## String facts -/

theorem goNatDigits_eq_nil_iff (n : Nat) : goNatDigits n = [] ↔ n = 0 := by
  cases n with
  | zero => simp [goNatDigits]
  | succ n =>
      rw [goNatDigits]
      simp

theorem digitCh_eq_zero_iff (d : Nat) (h : d < 10) : digitCh d = '0' ↔ d = 0 := by
  interval_cases d <;> simp [digitCh]

theorem goItoa_succ_ne_zero (n : Nat) : goItoa (n + 1) ≠ "0" := by
  unfold goItoa
  rw [if_neg (Nat.succ_ne_zero n)]
  intro h
  have hd : goNatDigits (n + 1) = ['0'] := congrArg String.data h
  rw [goNatDigits] at hd
  cases hA : goNatDigits ((n + 1) / 10) with
  | nil =>
      rw [hA] at hd
      simp at hd
      have hdiv : (n + 1) / 10 = 0 := (goNatDigits_eq_nil_iff _).mp hA
      have hlt : n + 1 < 10 := by omega
      have hmod : (n + 1) % 10 = n + 1 := Nat.mod_eq_of_lt hlt
      rw [hmod] at hd
      have := (digitCh_eq_zero_iff (n + 1) hlt).mp hd
      omega
  | cons c t =>
      rw [hA] at hd
      simp at hd

theorem scsi_ne_hugepages (x : String) : "scsi" ++ x ≠ "hugepages" := by
  intro h
  have hd := congrArg String.data h
  rw [String.data_append, show "scsi".data = ['s', 'c', 's', 'i'] from rfl,
    show "hugepages".data = ['h', 'u', 'g', 'e', 'p', 'a', 'g', 'e', 's'] from rfl] at hd
  simp at hd

theorem net_ne_hugepages (x : String) : "net" ++ x ≠ "hugepages" := by
  intro h
  have hd := congrArg String.data h
  rw [String.data_append, show "net".data = ['n', 'e', 't'] from rfl,
    show "hugepages".data = ['h', 'u', 'g', 'e', 'p', 'a', 'g', 'e', 's'] from rfl] at hd
  simp at hd

theorem hostpci_ne_hugepages (x : String) : "hostpci" ++ x ≠ "hugepages" := by
  intro h
  have hd := congrArg String.data h
  rw [String.data_append, show "hostpci".data = ['h', 'o', 's', 't', 'p', 'c', 'i'] from rfl,
    show "hugepages".data = ['h', 'u', 'g', 'e', 'p', 'a', 'g', 'e', 's'] from rfl] at hd
  simp at hd

theorem scsi_ne_net0 (x : String) : "scsi" ++ x ≠ "net0" := by
  intro h
  have hd := congrArg String.data h
  rw [String.data_append, show "scsi".data = ['s', 'c', 's', 'i'] from rfl,
    show "net0".data = ['n', 'e', 't', '0'] from rfl] at hd
  simp at hd

theorem hostpci_ne_net0 (x : String) : "hostpci" ++ x ≠ "net0" := by
  intro h
  have hd := congrArg String.data h
  rw [String.data_append, show "hostpci".data = ['h', 'o', 's', 't', 'p', 'c', 'i'] from rfl,
    show "net0".data = ['n', 'e', 't', '0'] from rfl] at hd
  simp at hd

theorem net_succ_ne_net0 (n : Nat) : "net" ++ goItoa (n + 1) ≠ "net0" := by
  intro h
  have hd := congrArg String.data h
  rw [String.data_append, show "net".data = ['n', 'e', 't'] from rfl,
    show "net0".data = ['n', 'e', 't', '0'] from rfl] at hd
  have hd2 : (goItoa (n + 1)).data = ['0'] := by simpa using hd
  exact goItoa_succ_ne_zero n (String.ext hd2)

/-- `goQuote` passes a plain character through. -/
theorem goQuoteChar_plain (c : Char) (h : plainChar c) : goQuoteChar c = [c] := by
  obtain ⟨h1, h2, h3, h4⟩ := h
  unfold goQuoteChar
  rw [if_neg h1, if_neg h2, if_neg ?hn, if_neg ?hr, if_neg ?ht, if_pos ⟨h3, h4⟩]
  case hn => rintro rfl; simp at h3
  case hr => rintro rfl; simp at h3
  case ht => rintro rfl; simp at h3

theorem flatten_map_singleton {α : Type} (f : α → List α) (l : List α)
    (h : ∀ c ∈ l, f c = [c]) : (l.map f).flatten = l := by
  induction l with
  | nil => rfl
  | cons c t ih =>
      simp only [List.map_cons, List.flatten_cons, h c (by simp)]
      rw [ih fun x hx => h x (by simp [hx])]
      rfl

/-- On a string of plain characters, `goQuote` just wraps it in quotes. -/
theorem goQuote_plain (s : String) (h : ∀ c ∈ s.data, plainChar c) :
    goQuote s = "\"" ++ s ++ "\"" := by
  unfold goQuote
  have hfl : (s.data.map goQuoteChar).flatten = s.data :=
    flatten_map_singleton _ _ fun c hc => goQuoteChar_plain c (h c hc)
  rw [hfl]
  apply String.ext
  simp

theorem isPref_append (x post : List Char) : isPref x (x ++ post) = true := by
  induction x with
  | nil => rfl
  | cons c t ih => simp [isPref, ih]

theorem subIn_append (pre x post : List Char) :
    subIn x (pre ++ (x ++ post)) = true := by
  induction pre with
  | nil =>
      cases hx : x with
      | nil =>
          cases post with
          | nil => rfl
          | cons p t => simp [subIn, isPref]
      | cons c t =>
          simp only [List.nil_append, hx, List.cons_append, subIn]
          have h1 := isPref_append (c :: t) post
          simp only [List.cons_append] at h1
          simp [h1]
  | cons p pre ih =>
      simp only [List.cons_append, subIn]
      show (isPref x (p :: (pre ++ (x ++ post))) ||
        subIn x (pre ++ (x ++ post))) = true
      rw [ih]
      simp

/-- `strings.Contains` finds an explicitly embedded substring. -/
theorem goContains_embed (pre x post : String) :
    goContains (pre ++ x ++ post) x = true := by
  unfold goContains
  rw [String.data_append, String.data_append, List.append_assoc]
  exact subIn_append pre.data x.data post.data

/-! ## Facts about the option builders -/

theorem mem_ite_nil {c : Prop} [Decidable c] {x : VMOption} {l : List VMOption} :
    (x ∈ if c then l else []) ↔ c ∧ x ∈ l := by
  split
  · rename_i h; simp [h]
  · rename_i h; simp [h]

theorem mem_tagsOpts {mrs : Option String} {x : VMOption} :
    x ∈ tagsOpts mrs ↔ ∃ m, mrs = some m ∧ x = ⟨"tags", .s (mrTagPref ++ m)⟩ := by
  cases mrs <;> simp [tagsOpts]

theorem mem_balloonOpts {b : Option Bool} {x : VMOption} :
    x ∈ balloonOpts b ↔ b = some false ∧ x = ⟨"balloon", .i 0⟩ := by
  cases b with
  | none => simp [balloonOpts]
  | some bb => cases bb <;> simp [balloonOpts]

theorem buildAdditionalDisks_name {pickStor : String → Except String String} :
    ∀ (k : Nat) (disks : List DiskCfg) (opts : List VMOption),
      buildAdditionalDisks pickStor k disks = .ok opts →
      ∀ o ∈ opts, ∃ m : Nat, o.name = "scsi" ++ goItoa (m + 1) := by
  intro k disks
  induction disks generalizing k with
  | nil =>
      intro opts h o ho
      rw [buildAdditionalDisks] at h
      injection h with h2
      subst h2
      simp at ho
  | cons d rest ih =>
      intro opts h o ho
      rw [buildAdditionalDisks] at h
      cases hps : pickStor d.storageSelector with
      | error e => rw [hps] at h; simp at h
      | ok stor =>
          rw [hps] at h
          cases hrest : buildAdditionalDisks pickStor (k + 1) rest with
          | error e => rw [hrest] at h; simp [Except.map] at h
          | ok l2 =>
              rw [hrest] at h
              simp only [Except.map] at h
              injection h with h2
              subst h2
              rcases List.mem_cons.mp ho with h3 | h3
              · exact ⟨k, by rw [h3]⟩
              · exact ih (k + 1) l2 hrest o h3

theorem buildNics_name :
    ∀ (k : Nat) (nics : List NicCfg), ∀ o ∈ buildNics k nics,
      ∃ m : Nat, o.name = "net" ++ goItoa (m + 1) := by
  intro k nics
  induction nics generalizing k with
  | nil => intro o ho; simp [buildNics] at ho
  | cons nic rest ih =>
      intro o ho
      rw [buildNics] at ho
      rcases List.mem_cons.mp ho with h3 | h3
      · exact ⟨k, by rw [h3]⟩
      · exact ih (k + 1) o h3

theorem buildPcis_name :
    ∀ (k : Nat) (pcis : List PciCfg), ∀ o ∈ buildPcis k pcis,
      ∃ m : Nat, o.name = "hostpci" ++ goItoa m := by
  intro k pcis
  induction pcis generalizing k with
  | nil => intro o ho; simp [buildPcis] at ho
  | cons pci rest ih =>
      intro o ho
      rw [buildPcis] at ho
      rcases List.mem_cons.mp ho with h3 | h3
      · exact ⟨k, by rw [h3]⟩
      · exact ih (k + 1) o h3

/-- Shape of a successful `buildVMOptions` result. -/
theorem buildVMOptions_ok {pickStor : String → Except String String} {data : Data}
    {uuid reqId isoVolId : String} {mrs : Option String} {opts : List VMOption}
    (h : buildVMOptions pickStor data uuid reqId isoVolId mrs = .ok opts) :
    ∃ selectedStorage adOpts,
      pickStor data.storageSelector = .ok selectedStorage ∧
      buildAdditionalDisks pickStor 0 data.additionalDisks = .ok adOpts ∧
      opts =
        [⟨"smbios1", .s ("uuid=" ++ uuid)⟩,
         ⟨"name", .s reqId⟩,
         ⟨"cdrom", .s isoVolId⟩,
         ⟨"cpu", .s (if data.cpuType ≠ "" then data.cpuType else "x86-64-v2-AES")⟩,
         ⟨"cores", .i data.cores⟩,
         ⟨"sockets", .i data.sockets⟩,
         ⟨"memory", .i (data.memory : Int)⟩,
         ⟨"scsi0", .s (diskOptionsString selectedStorage data.diskSize
           data.diskSSD data.diskDiscard data.diskIOThread data.diskCache
           data.diskAIO)⟩,
         ⟨"scsihw", .s "virtio-scsi-single"⟩,
         ⟨"onboot", .i 1⟩,
         ⟨"net0", .s (netStringOf (effectiveBridge data) data.vlan)⟩,
         ⟨"agent", .s "enabled=true"⟩]
        ++ tagsOpts mrs
        ++ adOpts
        ++ (if data.machineType ≠ "" then [⟨"machine", OptVal.s data.machineType⟩] else [])
        ++ (if data.numa then [⟨"numa", OptVal.i 1⟩] else [])
        ++ (if data.hugepages ≠ "" then
              [⟨"hugepages", OptVal.s (normalizeHugepages data.hugepages)⟩]
            else [])
        ++ balloonOpts data.balloon
        ++ buildNics 0 data.additionalNICs
        ++ buildPcis 0 data.pciDevices := by
  unfold buildVMOptions at h
  cases hps : pickStor data.storageSelector with
  | error e => rw [hps] at h; simp at h
  | ok selectedStorage =>
      rw [hps] at h
      cases had : buildAdditionalDisks pickStor 0 data.additionalDisks with
      | error e => rw [had] at h; simp at h
      | ok adOpts =>
          rw [had] at h
          injection h with h2
          exact ⟨selectedStorage, adOpts, rfl, rfl, h2.symm⟩

/-- The hugepages-option membership fact shared by the C8 conjuncts. -/
theorem hugepages_mem_iff {pickStor : String → Except String String} {data : Data}
    {uuid reqId isoVolId : String} {mrs : Option String} {opts : List VMOption}
    (hok : buildVMOptions pickStor data uuid reqId isoVolId mrs = .ok opts)
    (v : OptVal) :
    VMOption.mk "hugepages" v ∈ opts ↔
      data.hugepages ≠ "" ∧ v = .s (normalizeHugepages data.hugepages) := by
  obtain ⟨selStor, adOpts, hps, had, hshape⟩ := buildVMOptions_ok hok
  subst hshape
  constructor
  · intro hv
    rcases List.mem_append.mp hv with hv | hpci
    rcases List.mem_append.mp hv with hv | hnic
    rcases List.mem_append.mp hv with hv | hball
    rcases List.mem_append.mp hv with hv | hhp
    rcases List.mem_append.mp hv with hv | hnuma
    rcases List.mem_append.mp hv with hv | hmach
    rcases List.mem_append.mp hv with hv | had2
    rcases List.mem_append.mp hv with hbase | htags
    · simp only [List.mem_cons, List.not_mem_nil, or_false,
        VMOption.mk.injEq] at hbase
      rcases hbase with ⟨h, -⟩ | ⟨h, -⟩ | ⟨h, -⟩ | ⟨h, -⟩ | ⟨h, -⟩ | ⟨h, -⟩
        | ⟨h, -⟩ | ⟨h, -⟩ | ⟨h, -⟩ | ⟨h, -⟩ | ⟨h, -⟩ | ⟨h, -⟩ <;>
        exact absurd h (by decide)
    · rw [mem_tagsOpts] at htags
      obtain ⟨m, -, htag⟩ := htags
      exact absurd (show ("hugepages" : String) = "tags" from
        congrArg VMOption.name htag) (by decide)
    · obtain ⟨m, hm⟩ := buildAdditionalDisks_name 0 _ _ had _ had2
      exact absurd hm.symm (scsi_ne_hugepages _)
    · rw [mem_ite_nil] at hmach
      exact absurd (show ("hugepages" : String) = "machine" from
        congrArg VMOption.name (List.mem_singleton.mp hmach.2)) (by decide)
    · rw [mem_ite_nil] at hnuma
      exact absurd (show ("hugepages" : String) = "numa" from
        congrArg VMOption.name (List.mem_singleton.mp hnuma.2)) (by decide)
    · rw [mem_ite_nil] at hhp
      exact ⟨hhp.1, congrArg VMOption.value (List.mem_singleton.mp hhp.2)⟩
    · rw [mem_balloonOpts] at hball
      exact absurd (show ("hugepages" : String) = "balloon" from
        congrArg VMOption.name hball.2) (by decide)
    · obtain ⟨m, hm⟩ := buildNics_name 0 _ _ hnic
      exact absurd hm.symm (net_ne_hugepages _)
    · obtain ⟨m, hm⟩ := buildPcis_name 0 _ _ hpci
      exact absurd hm.symm (hostpci_ne_hugepages _)
  · rintro ⟨hne, rfl⟩
    refine List.mem_append.mpr (Or.inl ?_)
    refine List.mem_append.mpr (Or.inl ?_)
    refine List.mem_append.mpr (Or.inl ?_)
    refine List.mem_append.mpr (Or.inr ?_)
    rw [if_pos hne]
    exact List.mem_singleton.mpr rfl

/-- C8: the hugepages lookup table is total — the six named inputs map per
the table, every other string passes through unchanged — and the `hugepages`
option appears in the assembled VM options exactly when the config's
hugepages field is non-empty (then carrying the normalized value). -/
theorem C8_hugepages_normalization :
    (normalizeHugepages "2MB" = "2" ∧ normalizeHugepages "2" = "2" ∧
      normalizeHugepages "1GB" = "1024" ∧ normalizeHugepages "1024" = "1024" ∧
      normalizeHugepages "any" = "any") ∧
    (∀ h : String, h ≠ "2MB" → h ≠ "2" → h ≠ "1GB" → h ≠ "1024" → h ≠ "any" →
      normalizeHugepages h = h) ∧
    (∀ (pickStor : String → Except String String) (data : Data)
        (uuid reqId isoVolId : String) (mrs : Option String)
        (opts : List VMOption),
      buildVMOptions pickStor data uuid reqId isoVolId mrs = .ok opts →
      ((∃ v, VMOption.mk "hugepages" v ∈ opts) ↔ data.hugepages ≠ "") ∧
      (∀ v, VMOption.mk "hugepages" v ∈ opts →
        v = .s (normalizeHugepages data.hugepages))) := by
  refine ⟨⟨rfl, rfl, rfl, rfl, rfl⟩, ?_, ?_⟩
  · intro h h1 h2 h3 h4 h5
    unfold normalizeHugepages
    rw [if_neg (by tauto), if_neg (by tauto), if_neg h5]
  · intro pickStor data uuid reqId isoVolId mrs opts hok
    constructor
    · constructor
      · rintro ⟨v, hv⟩
        exact ((hugepages_mem_iff hok v).mp hv).1
      · intro hne
        exact ⟨_, (hugepages_mem_iff hok _).mpr ⟨hne, rfl⟩⟩
    · intro v hv
      exact ((hugepages_mem_iff hok v).mp hv).2

/-- The configuration of the C8 witness. -/
def c8cfg : Data := { hugepages := "2MB" }

/-- The options the builder yields on the C8 witness configuration. -/
def c8optsW : List VMOption :=
  ((buildVMOptions (fun _ => Except.ok "local") c8cfg "u" "r" "iso" none).toOption).getD []

/-- C8, witness: the theorem applied to a concrete configuration. -/
theorem C8_witness :
    normalizeHugepages "2MB" = "2" ∧
    (((∃ v, VMOption.mk "hugepages" v ∈ c8optsW) ↔ c8cfg.hugepages ≠ "") ∧
      (∀ v, VMOption.mk "hugepages" v ∈ c8optsW →
        v = .s (normalizeHugepages c8cfg.hugepages))) :=
  ⟨C8_hugepages_normalization.1.1,
    C8_hugepages_normalization.2.2 (fun _ => Except.ok "local") c8cfg "u" "r"
      "iso" none c8optsW (by rfl)⟩

/-- The net0-option membership fact shared by the C10 conjuncts. -/
theorem net0_mem_iff {pickStor : String → Except String String} {data : Data}
    {uuid reqId isoVolId : String} {mrs : Option String} {opts : List VMOption}
    (hok : buildVMOptions pickStor data uuid reqId isoVolId mrs = .ok opts)
    (v : OptVal) :
    VMOption.mk "net0" v ∈ opts ↔
      v = .s (netStringOf (effectiveBridge data) data.vlan) := by
  obtain ⟨selStor, adOpts, hps, had, hshape⟩ := buildVMOptions_ok hok
  subst hshape
  constructor
  · intro hv
    rcases List.mem_append.mp hv with hv | hpci
    rcases List.mem_append.mp hv with hv | hnic
    rcases List.mem_append.mp hv with hv | hball
    rcases List.mem_append.mp hv with hv | hhp
    rcases List.mem_append.mp hv with hv | hnuma
    rcases List.mem_append.mp hv with hv | hmach
    rcases List.mem_append.mp hv with hv | had2
    rcases List.mem_append.mp hv with hbase | htags
    · simp only [List.mem_cons, List.not_mem_nil, or_false,
        VMOption.mk.injEq] at hbase
      rcases hbase with ⟨h, -⟩ | ⟨h, -⟩ | ⟨h, -⟩ | ⟨h, -⟩ | ⟨h, -⟩ | ⟨h, -⟩
        | ⟨h, -⟩ | ⟨h, -⟩ | ⟨h, -⟩ | ⟨h, -⟩ | ⟨-, hval⟩ | ⟨h, -⟩
      · exact absurd h (by decide)
      · exact absurd h (by decide)
      · exact absurd h (by decide)
      · exact absurd h (by decide)
      · exact absurd h (by decide)
      · exact absurd h (by decide)
      · exact absurd h (by decide)
      · exact absurd h (by decide)
      · exact absurd h (by decide)
      · exact absurd h (by decide)
      · exact hval
      · exact absurd h (by decide)
    · rw [mem_tagsOpts] at htags
      obtain ⟨m, -, htag⟩ := htags
      exact absurd (show ("net0" : String) = "tags" from
        congrArg VMOption.name htag) (by decide)
    · obtain ⟨m, hm⟩ := buildAdditionalDisks_name 0 _ _ had _ had2
      exact absurd hm.symm (scsi_ne_net0 _)
    · rw [mem_ite_nil] at hmach
      exact absurd (show ("net0" : String) = "machine" from
        congrArg VMOption.name (List.mem_singleton.mp hmach.2)) (by decide)
    · rw [mem_ite_nil] at hnuma
      exact absurd (show ("net0" : String) = "numa" from
        congrArg VMOption.name (List.mem_singleton.mp hnuma.2)) (by decide)
    · rw [mem_ite_nil] at hhp
      exact absurd (show ("net0" : String) = "hugepages" from
        congrArg VMOption.name (List.mem_singleton.mp hhp.2)) (by decide)
    · rw [mem_balloonOpts] at hball
      exact absurd (show ("net0" : String) = "balloon" from
        congrArg VMOption.name hball.2) (by decide)
    · obtain ⟨m, hm⟩ := buildNics_name 0 _ _ hnic
      exact absurd hm.symm (net_succ_ne_net0 _)
    · obtain ⟨m, hm⟩ := buildPcis_name 0 _ _ hpci
      exact absurd hm.symm (hostpci_ne_net0 _)
  · rintro rfl
    refine List.mem_append.mpr (Or.inl ?_)
    refine List.mem_append.mpr (Or.inl ?_)
    refine List.mem_append.mpr (Or.inl ?_)
    refine List.mem_append.mpr (Or.inl ?_)
    refine List.mem_append.mpr (Or.inl ?_)
    refine List.mem_append.mpr (Or.inl ?_)
    refine List.mem_append.mpr (Or.inl ?_)
    refine List.mem_append.mpr (Or.inl ?_)
    simp

/-- C10: an empty network-bridge config falls back to `vmbr0` — the primary
network descriptor `net0` is exactly `virtio,bridge=vmbr0,firewall=1`, with
`,tag=<vlan>` appended only when the VLAN is non-zero — and it is the unique
`net0` option emitted. -/
theorem C10_default_network_bridge :
    (∀ data : Data, data.networkBridge = "" → data.vlan = 0 →
      netStringOf (effectiveBridge data) data.vlan =
        "virtio,bridge=vmbr0,firewall=1") ∧
    (∀ data : Data, data.networkBridge = "" → data.vlan ≠ 0 →
      netStringOf (effectiveBridge data) data.vlan =
        "virtio,bridge=vmbr0,firewall=1,tag=" ++ goItoa data.vlan) ∧
    (∀ (pickStor : String → Except String String) (data : Data)
        (uuid reqId isoVolId : String) (mrs : Option String)
        (opts : List VMOption),
      buildVMOptions pickStor data uuid reqId isoVolId mrs = .ok opts →
      VMOption.mk "net0" (.s (netStringOf (effectiveBridge data) data.vlan)) ∈ opts ∧
      (∀ v, VMOption.mk "net0" v ∈ opts →
        v = .s (netStringOf (effectiveBridge data) data.vlan))) := by
  refine ⟨?_, ?_, ?_⟩
  · intro data hb hv
    unfold netStringOf effectiveBridge
    rw [hb, hv, if_pos rfl, if_pos rfl]
    decide
  · intro data hb hv
    unfold netStringOf effectiveBridge
    rw [hb, if_pos rfl, if_neg hv,
      show "virtio,bridge=" ++ "vmbr0" ++ ",firewall=1,tag=" =
        "virtio,bridge=vmbr0,firewall=1,tag=" by decide]
  · intro pickStor data uuid reqId isoVolId mrs opts hok
    exact ⟨(net0_mem_iff hok _).mpr rfl, fun v hv => (net0_mem_iff hok v).mp hv⟩

/-- The configuration of the C10 witness: empty bridge, zero VLAN. -/
def c10cfg : Data := { networkBridge := "", vlan := 0 }

/-- The options the builder yields on the C10 witness configuration. -/
def c10optsW : List VMOption :=
  ((buildVMOptions (fun _ => Except.ok "local") c10cfg "u" "r" "iso" none).toOption).getD []

/-- C10, witness: the theorem applied to a concrete configuration. -/
theorem C10_witness :
    netStringOf (effectiveBridge c10cfg) c10cfg.vlan =
      "virtio,bridge=vmbr0,firewall=1" ∧
    VMOption.mk "net0" (.s (netStringOf (effectiveBridge c10cfg) c10cfg.vlan)) ∈ c10optsW :=
  ⟨C10_default_network_bridge.1 c10cfg rfl rfl,
    (C10_default_network_bridge.2.2 (fun _ => Except.ok "local") c10cfg "u" "r"
      "iso" none c10optsW (by rfl)).1⟩

/-! ## Claims about the steps -/

/-- Polling depends only on the task-ping view of the remote API. -/
theorem checkTaskStatus_congr {env2 env : Env} (h : env2.taskPing = env.taskPing)
    (id : String) : checkTaskStatus env2 id = checkTaskStatus env id := by
  unfold checkTaskStatus
  rw [h]

/-- C2: in the uploadISO step a recorded download task is polled; a poll
failure whose text is exactly "stopped" falls through to a fresh download
attempt (re-deriving the image name and recording a new task with a retry
signal), the still-running retry signal is passed through, and every other
poll failure is returned as the step's terminal error; in the syncVM and
startVM steps every non-success, non-running poll result is returned as a
terminal error. -/
theorem C2_stopped_is_recoverable_only_for_download (env : Env) (s : MachineSpec) :
    (s.VolumeUploadTask ≠ "" →
      (∀ st : String, checkTaskStatus env s.VolumeUploadTask = some (.msg st) →
        st ≠ "stopped" → uploadISOStep env s = (s, some (.msg st))) ∧
      (∀ n : Nat, checkTaskStatus env s.VolumeUploadTask = some (.retry n) →
        uploadISOStep env s = (s, some (.retry n))) ∧
      (checkTaskStatus env s.VolumeUploadTask = none →
        uploadISOStep env s = (s, none)) ∧
      (checkTaskStatus env s.VolumeUploadTask = some (.msg "stopped") →
        ∀ (d : Data) (e2 upid : String),
          env.providerData = .ok d →
          env.nodeHandle s.Node = .ok () →
          env.storageISOHandle s.Node = .ok () →
          env.isoLookup s.Node (isoNameOf s.Schematic env.talosVersion) = .error e2 →
          env.downloadURL (isoNameOf s.Schematic env.talosVersion)
            (isoURL s.Schematic env.talosVersion) = .ok upid →
          uploadISOStep env s =
            ({ s with
                TalosVersion := env.talosVersion
                VolumeId := isoNameOf s.Schematic env.talosVersion
                VolumeUploadTask := upid }, some (.retry 1)))) ∧
    (s.VmCreateTask ≠ "" → ∀ e, checkTaskStatus env s.VmCreateTask = some e →
      syncVMStep env s = (s, some e)) ∧
    (s.VmStartTask ≠ "" → ∀ e, checkTaskStatus env s.VmStartTask = some e →
      startVMStep env s = (s, some e)) := by
  refine ⟨fun htask => ⟨?_, ?_, ?_, ?_⟩, ?_, ?_⟩
  · intro st hc hst
    unfold uploadISOStep
    rw [if_pos htask, hc]
    dsimp only
    rw [if_pos (show GoErr.errString (.msg st) ≠ "stopped" from hst)]
  · intro n hc
    unfold uploadISOStep
    rw [if_pos htask, hc]
    dsimp only
    rw [if_pos (show GoErr.errString (.retry n) ≠ "stopped" from
      (by decide : ("retry requested" : String) ≠ "stopped"))]
  · intro hc
    unfold uploadISOStep
    rw [if_pos htask, hc]
  · intro hc d e2 upid hd hnode hsto hiso hdl
    unfold uploadISOStep
    rw [if_pos htask, hc]
    dsimp only
    rw [if_neg (show ¬GoErr.errString (.msg "stopped") ≠ "stopped" by decide)]
    unfold uploadISOFresh
    rw [hd]
    dsimp only
    rw [hnode, hsto, hiso, hdl]
  · intro htask e hc
    unfold syncVMStep
    rw [if_pos htask, hc]
  · intro htask e hc
    unfold startVMStep
    rw [if_pos htask, hc]

/-- The environment of several witnesses: every remote call succeeds. -/
def envBase : Env where
  providerData := .ok {}
  machineRequestSet := none
  talosVersion := "v1.8.0"
  requestId := "req-1"
  joinConfig := ""
  newUuid := "uuid-1"
  nodes := .ok []
  nodeHandle := fun _ => .ok ()
  nodeVMs := fun _ => .ok []
  taskPing := fun _ => .ok ⟨false, true, "OK"⟩
  storageISOHandle := fun _ => .ok ()
  isoLookup := fun _ _ => .error "iso not found"
  downloadURL := fun _ _ => .ok "UPID:dl:1"
  clusterHandle := .ok ()
  nextId := .ok 100
  createVM := fun _ _ => .ok "UPID:create:1"
  getVM := fun _ _ => .ok ()
  cloudInit := .ok ()
  vmStart := .ok "UPID:start:1"
  vmStop := .ok "UPID:stop:1"
  vmDelete := .ok "UPID:delete:1"
  waitTask := fun _ => none
  storages := fun _ => .ok []
  celParse := fun _ => .ok ()
  celEval := fun _ _ => .ok false

/-- An environment whose task poll reports a plain failure. -/
def envFailedTask : Env := { envBase with taskPing := fun _ => .ok ⟨false, false, "job failed"⟩ }

/-- C2, witness: a failed (non-"stopped") poll is returned by all three
steps on a concrete state. -/
theorem C2_witness :
    uploadISOStep envFailedTask { VolumeUploadTask := "T1" } =
      ({ VolumeUploadTask := "T1" }, some (.msg "job failed")) ∧
    syncVMStep envFailedTask { VmCreateTask := "T2" } =
      ({ VmCreateTask := "T2" }, some (.msg "job failed")) ∧
    startVMStep envFailedTask { VmStartTask := "T3" } =
      ({ VmStartTask := "T3" }, some (.msg "job failed")) :=
  ⟨((C2_stopped_is_recoverable_only_for_download envFailedTask
        { VolumeUploadTask := "T1" }).1 (by decide)).1 "job failed" (by rfl) (by decide),
    (C2_stopped_is_recoverable_only_for_download envFailedTask
        { VmCreateTask := "T2" }).2.1 (by decide) _ (by rfl),
    (C2_stopped_is_recoverable_only_for_download envFailedTask
        { VmStartTask := "T3" }).2.2 (by decide) _ (by rfl)⟩

/-- C6: deprovisioning a machine whose `Vmid` was never assigned succeeds
against any environment (no remote call can influence it); a set `Vmid`
with an empty `Node` is the corrupt-state error; a lookup error mentioning
"does not exist" is treated as success, so the call is idempotent on an
already-absent VM. -/
theorem C6_deprovision_absent_vm (env : Env) (s : MachineSpec) :
    (s.Vmid = 0 → ∀ env2 : Env, Deprovision env2 s = none) ∧
    (s.Vmid ≠ 0 → s.Node = "" →
      Deprovision env s = some (.msg "VM is missing the node information")) ∧
    (∀ e : String, s.Vmid ≠ 0 → s.Node ≠ "" →
      env.getVM s.Node s.Vmid = .error e →
      goContains e "does not exist" = true →
      Deprovision env s = none) := by
  refine ⟨?_, ?_, ?_⟩
  · intro h0 env2
    unfold Deprovision
    rw [if_pos h0]
  · intro h0 hn
    unfold Deprovision
    rw [if_neg h0, if_pos hn]
  · intro e h0 hn hget hcont
    unfold Deprovision
    rw [if_neg h0, if_neg hn, hget]
    dsimp only
    rw [if_pos hcont]

/-- C6, witness. -/
theorem C6_witness :
    Deprovision envBase {} = none ∧
    Deprovision envBase { Vmid := 7 } =
      some (.msg "VM is missing the node information") ∧
    Deprovision { envBase with getVM := fun _ _ => .error "vm 7 does not exist" }
      { Vmid := 7, Node := "pve1" } = none :=
  ⟨(C6_deprovision_absent_vm envBase {}).1 (by decide) envBase,
    (C6_deprovision_absent_vm envBase { Vmid := 7 }).2.1 (by decide) (by rfl),
    (C6_deprovision_absent_vm
        { envBase with getVM := fun _ _ => .error "vm 7 does not exist" }
        { Vmid := 7, Node := "pve1" }).2.2 "vm 7 does not exist" (by decide)
      (by decide) (by rfl) (by decide)⟩

/-- C7: the pickNode step fails with "no nodes available" on an empty node
list; a configured node that is missing or not online produces the
descriptive error naming it; a configured online node is recorded verbatim,
and the outcome then depends on nothing beyond the config and the node
list — the ranking queries are never consulted. -/
theorem C7_pickNode_validation (env : Env) (s : MachineSpec) (data : Data)
    (hd : env.providerData = .ok data) :
    (env.nodes = .ok [] → pickNodeStep env s = (s, some (.msg "no nodes available"))) ∧
    (∀ nodes : List PNodeInfo, env.nodes = .ok nodes → nodes ≠ [] → data.node ≠ "" →
      (nodes.find? (fun n => n.node = data.node) = none →
        pickNodeStep env s = (s, some (.msg ("specified node " ++ goQuote data.node ++
          " not found in cluster")))) ∧
      (∀ n, nodes.find? (fun n => n.node = data.node) = some n → n.status ≠ "online" →
        pickNodeStep env s = (s, some (.msg ("specified node " ++ goQuote data.node ++
          " is not online (status: " ++ n.status ++ ")")))) ∧
      (∀ n, nodes.find? (fun n => n.node = data.node) = some n → n.status = "online" →
        pickNodeStep env s = ({ s with Node := data.node }, none) ∧
        ∀ env2 : Env, env2.providerData = env.providerData → env2.nodes = env.nodes →
          pickNodeStep env2 s = pickNodeStep env s)) := by
  constructor
  · intro hn
    unfold pickNodeStep
    rw [hd, hn]
    simp
  · intro nodes hn hne hcfg
    refine ⟨?_, ?_, ?_⟩
    · intro hfind
      unfold pickNodeStep
      rw [hd, hn]
      dsimp only
      rw [if_neg (by simpa using hne), if_pos hcfg, hfind]
    · intro n hfind hst
      unfold pickNodeStep
      rw [hd, hn]
      dsimp only
      rw [if_neg (by simpa using hne), if_pos hcfg, hfind]
      dsimp only
      rw [if_pos hst]
    · intro n hfind hst
      have key : ∀ envx : Env, envx.providerData = .ok data → envx.nodes = .ok nodes →
          pickNodeStep envx s = ({ s with Node := data.node }, none) := by
        intro envx hdx hnx
        unfold pickNodeStep
        rw [hdx, hnx]
        dsimp only
        rw [if_neg (by simpa using hne), if_pos hcfg, hfind]
        dsimp only
        rw [if_neg (by simp [hst])]
      exact ⟨key env hd hn, fun env2 hd2 hn2 =>
        (key env2 (hd2.trans hd) (hn2.trans hn)).trans (key env hd hn).symm⟩

/-- C7, witness. -/
theorem C7_witness :
    pickNodeStep { envBase with nodes := .ok [] } {} =
      ({}, some (.msg "no nodes available")) ∧
    pickNodeStep
      { envBase with
          providerData := .ok { node := "pve9" }
          nodes := .ok [⟨"pve1", "online", 1, 2⟩] } {} =
      ({}, some (.msg "specified node \"pve9\" not found in cluster")) ∧
    pickNodeStep
      { envBase with
          providerData := .ok { node := "pve1" }
          nodes := .ok [⟨"pve1", "offline", 1, 2⟩] } {} =
      ({}, some (.msg "specified node \"pve1\" is not online (status: offline)")) ∧
    pickNodeStep
      { envBase with
          providerData := .ok { node := "pve1" }
          nodes := .ok [⟨"pve1", "online", 1, 2⟩] } {} =
      ({ Node := "pve1" }, none) := by
  refine ⟨?_, ?_, ?_, ?_⟩
  · exact (C7_pickNode_validation _ {} {} (by rfl)).1 (by rfl)
  · have h := ((C7_pickNode_validation
      { envBase with
          providerData := .ok { node := "pve9" }
          nodes := .ok [⟨"pve1", "online", 1, 2⟩] } {} { node := "pve9" }
      (by rfl)).2 [⟨"pve1", "online", 1, 2⟩] (by rfl) (by decide) (by decide)).1
      (by decide)
    simpa using h
  · have h := (((C7_pickNode_validation
      { envBase with
          providerData := .ok { node := "pve1" }
          nodes := .ok [⟨"pve1", "offline", 1, 2⟩] } {} { node := "pve1" }
      (by rfl)).2 [⟨"pve1", "offline", 1, 2⟩] (by rfl) (by decide) (by decide)).2.1
      ⟨"pve1", "offline", 1, 2⟩ (by decide) (by decide))
    simpa using h
  · exact ((((C7_pickNode_validation
      { envBase with
          providerData := .ok { node := "pve1" }
          nodes := .ok [⟨"pve1", "online", 1, 2⟩] } {} { node := "pve1" }
      (by rfl)).2 [⟨"pve1", "online", 1, 2⟩] (by rfl) (by decide) (by decide)).2.2
      ⟨"pve1", "online", 1, 2⟩ (by decide) (by rfl))).1

/-- C4 (amended): once a task field is non-empty the step's outcome is
determined by the task poll alone (no new remote operation can influence
it), except for the upload step's recoverable "stopped" poll, which starts a
fresh download; `Uuid` is guarded by its emptiness check and `Vmid` by the
task check, so neither is overwritten; the pickNode step, however,
re-assigns `Node` on every invocation — its choice (and error) is a function
of the environment alone, so an already-set `Node` survives re-invocation
only while the configuration and cluster observations are unchanged. -/
theorem C4_task_fields_guard (env : Env) (s : MachineSpec) :
    (s.VolumeUploadTask ≠ "" →
      checkTaskStatus env s.VolumeUploadTask ≠ some (.msg "stopped") →
      ∀ env2 : Env, env2.taskPing = env.taskPing →
        uploadISOStep env2 s = uploadISOStep env s ∧
        (uploadISOStep env s).1.VolumeUploadTask = s.VolumeUploadTask) ∧
    (s.VmCreateTask ≠ "" → ∀ env2 : Env, env2.taskPing = env.taskPing →
      syncVMStep env2 s = syncVMStep env s ∧ (syncVMStep env s).1 = s) ∧
    (s.VmStartTask ≠ "" → ∀ env2 : Env, env2.taskPing = env.taskPing →
      startVMStep env2 s = startVMStep env s ∧ (startVMStep env s).1 = s) ∧
    (s.Uuid ≠ "" → (syncVMStep env s).1.Uuid = s.Uuid) ∧
    (∀ s2 : MachineSpec, (pickNodeStep env s2).2 = (pickNodeStep env s).2 ∧
      ((pickNodeStep env s).2 = none →
        (pickNodeStep env s2).1.Node = (pickNodeStep env s).1.Node)) := by
  refine ⟨?_, ?_, ?_, ?_, ?_⟩
  · intro htask hstop env2 hping
    unfold uploadISOStep
    rw [if_pos htask, if_pos htask, checkTaskStatus_congr hping]
    cases hc : checkTaskStatus env s.VolumeUploadTask with
    | none => exact ⟨rfl, rfl⟩
    | some e =>
        cases e with
        | retry n =>
            dsimp only
            rw [if_pos (show GoErr.errString (.retry n) ≠ "stopped" from
                (by decide : ("retry requested" : String) ≠ "stopped")),
              if_pos (show GoErr.errString (.retry n) ≠ "stopped" from
                (by decide : ("retry requested" : String) ≠ "stopped"))]
            exact ⟨rfl, rfl⟩
        | msg st =>
            have hne : st ≠ "stopped" := fun h => hstop (by rw [hc, h])
            dsimp only
            rw [if_pos (show GoErr.errString (.msg st) ≠ "stopped" from hne),
              if_pos (show GoErr.errString (.msg st) ≠ "stopped" from hne)]
            exact ⟨rfl, rfl⟩
  · intro htask env2 hping
    unfold syncVMStep
    rw [if_pos htask, if_pos htask, checkTaskStatus_congr hping]
    cases hc : checkTaskStatus env s.VmCreateTask with
    | none => exact ⟨rfl, rfl⟩
    | some e => exact ⟨rfl, rfl⟩
  · intro htask env2 hping
    unfold startVMStep
    rw [if_pos htask, if_pos htask, checkTaskStatus_congr hping]
    cases hc : checkTaskStatus env s.VmStartTask with
    | none => exact ⟨rfl, rfl⟩
    | some e => exact ⟨rfl, rfl⟩
  · intro hu
    unfold syncVMStep
    split
    · rename_i htask
      cases hc : checkTaskStatus env s.VmCreateTask with
      | none => rfl
      | some e => rfl
    · dsimp only
      repeat' split
      all_goals rfl
  · intro s2
    unfold pickNodeStep
    constructor
    · repeat' split
      all_goals rfl
    · repeat' split
      all_goals first
        | (intro h; rfl)
        | (intro h; exact Option.noConfusion h)

/-- Two cluster snapshots with different node inventories. -/
def c4env1 : Env := { envBase with nodes := .ok [⟨"n1", "online", 1, 2⟩] }

/-- See `c4env1`. -/
def c4env2 : Env := { envBase with nodes := .ok [⟨"n2", "online", 1, 2⟩] }

/-- C4, counterexample: re-invoking the pickNode step overwrites an
already-set `Node`: the step has no "already set" guard, so after the
cluster inventory changes the persisted choice flips from `n1` to `n2`. -/
theorem C4_counterexample :
    (pickNodeStep c4env1 {}).1.Node = "n1" ∧
    (pickNodeStep c4env1 {}).2 = none ∧
    (pickNodeStep c4env2 (pickNodeStep c4env1 {}).1).1.Node = "n2" ∧
    ("n2" : String) ≠ "n1" :=
  ⟨by decide, by decide, by decide, by decide⟩

/-- C4, witness: the amended theorem applied to concrete states — polling a
recorded create task leaves the state untouched and ignores the rest of the
environment. -/
theorem C4_witness :
    syncVMStep { envBase with createVM := fun _ _ => Except.error "boom" }
        { VmCreateTask := "T2" } =
      syncVMStep envBase { VmCreateTask := "T2" } ∧
    (syncVMStep envBase { VmCreateTask := "T2" }).1 = { VmCreateTask := "T2" } :=
  (C4_task_fields_guard envBase { VmCreateTask := "T2" }).2.1 (by decide)
    { envBase with createVM := fun _ _ => Except.error "boom" } (by rfl)

/-- The cache-file-name contract of spec §4.3, stated in the spec's own
terms: hex-encode the SHA-256 digest of the UTF-8 bytes of the canonical
source URL and append the image extension. -/
def specCacheFileName (schematic version : String) : String :=
  hexStr (sha256Bytes (utf8Bytes (isoURL schematic version))) ++ ".iso"

/-- The `VolumeId` an uploadISO invocation records (helper shared by the C5
conjuncts). -/
theorem uploadISO_volumeId (env : Env) (s : MachineSpec) (d : Data)
    (htask : s.VolumeUploadTask = "") (hd : env.providerData = .ok d) :
    (uploadISOStep env s).1.VolumeId =
      specCacheFileName s.Schematic env.talosVersion := by
  unfold uploadISOStep
  rw [if_neg (by simp [htask])]
  unfold uploadISOFresh
  dsimp only
  rw [hd]
  dsimp only
  repeat' split
  all_goals rfl

/-- C5: the uploadISO step's recorded image name equals the spec's
content-addressed name — lowercase hex of the SHA-256 digest of the UTF-8
bytes of the canonical factory URL, with ".iso" appended — and it is a pure
function of the (schematic, version) pair: any two invocations agreeing on
those agree on the name. -/
theorem C5_volumeId_content_addressed (env : Env) (s : MachineSpec) (d : Data)
    (htask : s.VolumeUploadTask = "") (hd : env.providerData = .ok d) :
    (uploadISOStep env s).1.VolumeId =
      specCacheFileName s.Schematic env.talosVersion ∧
    specCacheFileName s.Schematic env.talosVersion =
      hexStr (sha256Bytes (utf8Bytes (isoURL s.Schematic env.talosVersion))) ++ ".iso" ∧
    (∀ (env2 : Env) (s2 : MachineSpec) (d2 : Data), s2.VolumeUploadTask = "" →
      env2.providerData = .ok d2 → s2.Schematic = s.Schematic →
      env2.talosVersion = env.talosVersion →
      (uploadISOStep env2 s2).1.VolumeId = (uploadISOStep env s).1.VolumeId) := by
  refine ⟨uploadISO_volumeId env s d htask hd, rfl, ?_⟩
  intro env2 s2 d2 htask2 hd2 hsch hver
  rw [uploadISO_volumeId env s d htask hd, uploadISO_volumeId env2 s2 d2 htask2 hd2,
    hsch, hver]

/-- C5, witness. -/
theorem C5_witness :
    (uploadISOStep envBase { Schematic := "abc" }).1.VolumeId =
      specCacheFileName "abc" envBase.talosVersion ∧
    (uploadISOStep { envBase with downloadURL := fun _ _ => Except.error "x" }
        { Schematic := "abc", Node := "other" }).1.VolumeId =
      (uploadISOStep envBase { Schematic := "abc" }).1.VolumeId :=
  ⟨(C5_volumeId_content_addressed envBase { Schematic := "abc" } {} rfl rfl).1,
    (C5_volumeId_content_addressed envBase { Schematic := "abc" } {} rfl rfl).2.2
      { envBase with downloadURL := fun _ _ => Except.error "x" }
      { Schematic := "abc", Node := "other" } {} rfl rfl rfl rfl⟩

/-! ## C3: storage-pool selection -/

theorem pickStorageLoop_cons {E : Type} (parse : String → Except String E)
    (evalBool : E → CelBindings → Except String Bool) (node sel : String)
    (st : PStorage) (rest : List PStorage) :
    pickStorageLoop parse evalBool node sel (st :: rest) =
      match parse sel with
      | .error e => .error e
      | .ok ex =>
          match evalBool ex ⟨st.name, node, st.stype, st.avail⟩ with
          | .error e => .error e
          | .ok true => .ok st.name
          | .ok false => pickStorageLoop parse evalBool node sel rest := rfl

theorem pickStorageLoop_allFalse {E : Type} (parse : String → Except String E)
    (evalBool : E → CelBindings → Except String Bool) (node sel : String)
    (ex : E) (hp : parse sel = .ok ex) :
    ∀ sts : List PStorage,
      (∀ p ∈ sts, evalBool ex ⟨p.name, node, p.stype, p.avail⟩ = .ok false) →
      pickStorageLoop parse evalBool node sel sts =
        .error ("failed to pick the disk: no matches for the condition " ++
          goQuote sel) := by
  intro sts
  induction sts with
  | nil => intro _; rfl
  | cons st rest ih =>
      intro hall
      rw [pickStorageLoop_cons, hp]
      dsimp only
      rw [hall st (List.mem_cons_self st rest)]
      exact ih fun p hmem => hall p (List.mem_cons_of_mem st hmem)

theorem pickStorageLoop_skip {E : Type} (parse : String → Except String E)
    (evalBool : E → CelBindings → Except String Bool) (node sel : String)
    (ex : E) (hp : parse sel = .ok ex) (l : List PStorage) :
    ∀ pre : List PStorage,
      (∀ p ∈ pre, evalBool ex ⟨p.name, node, p.stype, p.avail⟩ = .ok false) →
      pickStorageLoop parse evalBool node sel (pre ++ l) =
        pickStorageLoop parse evalBool node sel l := by
  intro pre
  induction pre with
  | nil => intro _; rfl
  | cons st rest ih =>
      intro hall
      rw [List.cons_append, pickStorageLoop_cons, hp]
      dsimp only
      rw [hall st (List.mem_cons_self st rest)]
      exact ih fun p hmem => hall p (List.mem_cons_of_mem st hmem)

/-- **C3.** Storage selection scans the pools in the order the remote API
returned them: a parse failure of the selector is terminal whenever at
least one candidate pool exists; an evaluation error on the first
not-yet-rejected candidate is surfaced immediately, without trying later
candidates; the first candidate whose bindings (name, node, storageType,
availableSpace) satisfy the selector is returned; exhausting every
candidate — and also starting from an empty pool list, even when the
selector would not parse — yields the terminal no-match error embedding
the `%q`-quoted selector, which contains the selector text verbatim only
when the selector is free of characters that `%q` escapes. -/
theorem C3_pickStorage_selection {E : Type} (parse : String → Except String E)
    (evalBool : E → CelBindings → Except String Bool) (node sel : String) :
    (∀ (e : String) (st : PStorage) (rest : List PStorage),
      parse sel = .error e →
      pickStorage parse evalBool node (.ok (st :: rest)) sel = .error e) ∧
    (∀ (ex : E) (pre : List PStorage) (st : PStorage) (post : List PStorage),
      parse sel = .ok ex →
      (∀ p ∈ pre, evalBool ex ⟨p.name, node, p.stype, p.avail⟩ = .ok false) →
      evalBool ex ⟨st.name, node, st.stype, st.avail⟩ = .ok true →
      pickStorage parse evalBool node (.ok (pre ++ st :: post)) sel =
        .ok st.name) ∧
    (∀ (ex : E) (e : String) (pre : List PStorage) (st : PStorage)
        (post : List PStorage),
      parse sel = .ok ex →
      (∀ p ∈ pre, evalBool ex ⟨p.name, node, p.stype, p.avail⟩ = .ok false) →
      evalBool ex ⟨st.name, node, st.stype, st.avail⟩ = .error e →
      pickStorage parse evalBool node (.ok (pre ++ st :: post)) sel =
        .error e) ∧
    (∀ (ex : E) (sts : List PStorage),
      parse sel = .ok ex →
      (∀ p ∈ sts, evalBool ex ⟨p.name, node, p.stype, p.avail⟩ = .ok false) →
      pickStorage parse evalBool node (.ok sts) sel =
        .error ("failed to pick the disk: no matches for the condition " ++
          goQuote sel)) ∧
    (pickStorage parse evalBool node (.ok []) sel =
      .error ("failed to pick the disk: no matches for the condition " ++
        goQuote sel)) ∧
    ((∀ c ∈ sel.data, plainChar c) →
      goContains ("failed to pick the disk: no matches for the condition " ++
        goQuote sel) sel = true) := by
  refine ⟨?_, ?_, ?_, ?_, rfl, ?_⟩
  · intro e st rest hperr
    show pickStorageLoop parse evalBool node sel (st :: rest) = .error e
    rw [pickStorageLoop_cons, hperr]
  · intro ex pre st post hp hall htrue
    show pickStorageLoop parse evalBool node sel (pre ++ st :: post) = .ok st.name
    rw [pickStorageLoop_skip parse evalBool node sel ex hp (st :: post) pre hall,
      pickStorageLoop_cons, hp]
    dsimp only
    rw [htrue]
  · intro ex e pre st post hp hall herr
    show pickStorageLoop parse evalBool node sel (pre ++ st :: post) = .error e
    rw [pickStorageLoop_skip parse evalBool node sel ex hp (st :: post) pre hall,
      pickStorageLoop_cons, hp]
    dsimp only
    rw [herr]
  · intro ex sts hp hall
    show pickStorageLoop parse evalBool node sel sts = _
    exact pickStorageLoop_allFalse parse evalBool node sel ex hp sts hall
  · intro hpl
    rw [goQuote_plain sel hpl]
    have hassoc : ("failed to pick the disk: no matches for the condition " ++
        ("\"" ++ sel ++ "\"")) =
        ("failed to pick the disk: no matches for the condition " ++ "\"") ++
          sel ++ "\"" := by
      apply String.ext
      simp [String.data_append]
    rw [hassoc]
    exact goContains_embed _ sel _

/-- The selector whose quotes `%q` escapes in the no-match message. -/
def c3selQ : String := "name == \"local\""

/-- C3, counterexample: with the selector `name == "local"` the no-match
message does not contain the selector verbatim (its double quotes come out
escaped), and over an empty pool list a selector whose parse fails is still
reported as no-match, not as a parse error. -/
theorem C3_counterexample :
    (pickStorage (fun s => (.ok s : Except String String))
        (fun _ _ => .ok false) "pve" (.ok [⟨"local", "dir", 5⟩]) c3selQ =
      .error ("failed to pick the disk: no matches for the condition " ++
        goQuote c3selQ) ∧
      goContains ("failed to pick the disk: no matches for the condition " ++
        goQuote c3selQ) c3selQ = false) ∧
    pickStorage (fun _ => (.error "parse failure" : Except String Unit))
        (fun _ _ => .ok false) "pve" (.ok []) c3selQ =
      .error ("failed to pick the disk: no matches for the condition " ++
        goQuote c3selQ) := by
  exact ⟨⟨rfl, by decide⟩, rfl⟩

/-- C3, witness. -/
theorem C3_witness :
    pickStorage (fun _ => (.error "bad selector" : Except String Unit))
        (fun _ _ => .ok false) "pve" (.ok [⟨"local", "dir", 5⟩]) "((" =
      .error "bad selector" ∧
    pickStorage (fun s => (.ok s : Except String String))
        (fun _ b => .ok (decide (4 ≤ b.availableSpace))) "pve"
        (.ok [⟨"small", "dir", 1⟩, ⟨"big", "lvm", 9⟩, ⟨"huge", "zfs", 9⟩])
        "sel" = .ok "big" ∧
    pickStorage (fun s => (.ok s : Except String String))
        (fun _ b => if b.name = "bad" then .error "boom" else .ok false) "pve"
        (.ok [⟨"ok1", "dir", 1⟩, ⟨"bad", "dir", 1⟩, ⟨"later", "dir", 1⟩])
        "sel" = .error "boom" ∧
    pickStorage (fun s => (.ok s : Except String String))
        (fun _ _ => .ok false) "pve" (.ok [⟨"a", "dir", 1⟩]) "size" =
      .error ("failed to pick the disk: no matches for the condition " ++
        goQuote "size") ∧
    goContains ("failed to pick the disk: no matches for the condition " ++
      goQuote "size") "size" = true := by
  refine ⟨?_, ?_, ?_, ?_, ?_⟩
  · exact (C3_pickStorage_selection (fun _ => (.error "bad selector" : Except String Unit))
      (fun _ _ => .ok false) "pve" "((").1 "bad selector" ⟨"local", "dir", 5⟩ [] rfl
  · exact (C3_pickStorage_selection (fun s => (.ok s : Except String String))
      (fun _ b => .ok (decide (4 ≤ b.availableSpace))) "pve" "sel").2.1 "sel"
      [⟨"small", "dir", 1⟩] ⟨"big", "lvm", 9⟩ [⟨"huge", "zfs", 9⟩] rfl
      (by intro p hmem; simp only [List.mem_singleton] at hmem; subst hmem; rfl)
      rfl
  · exact (C3_pickStorage_selection (fun s => (.ok s : Except String String))
      (fun _ b => if b.name = "bad" then .error "boom" else .ok false) "pve"
      "sel").2.2.1 "sel" "boom" [⟨"ok1", "dir", 1⟩] ⟨"bad", "dir", 1⟩
      [⟨"later", "dir", 1⟩] rfl
      (by intro p hmem; simp only [List.mem_singleton] at hmem; subst hmem; rfl)
      rfl
  · exact (C3_pickStorage_selection (fun s => (.ok s : Except String String))
      (fun _ _ => .ok false) "pve" "size").2.2.2.1 "size" [⟨"a", "dir", 1⟩] rfl
      (by intro p hmem; simp only [List.mem_singleton] at hmem; subst hmem; rfl)
  · exact (C3_pickStorage_selection (fun s => (.ok s : Except String String))
      (fun _ _ => .ok false) "pve" "size").2.2.2.2.2 (by decide)

end ProxmoxProvider
